import Mathlib

/-!
Verification development for the LogiPack placement-evaluation engine.

The source consists of three files:
* `python_packer_server.py` — class `PythonBinPacker` with `predict` and the
  sub-scorers `_calculate_support_score`, `_calculate_compactness`,
  `_evaluate_future_items`, `_find_flat_areas`, `_flood_fill`;
* `convert_model.py` — an embedded JavaScript port `DeepPack3DModel` with
  `calculateHeuristic` and the analogous sub-scorers;
* `model_server.py` — a numpy fallback heuristic inside its `predict` route.

Modelling conventions:
* Python/JS floating-point values are embedded as exact rationals `ℚ`;
  `math.exp` / `np.std` (a square root) are embedded as `Real.exp` /
  `Real.sqrt`, so the few definitions touching them are `noncomputable`
  while every rational component stays computable and decidable.
* A height/action map is a square grid `Fin n → Fin n → ℚ`.  The class
  `PythonBinPacker` fixes `self.grid_size = 32` and loops over
  `range(32)`; the embedded loops run over the actual grid dimension `n`,
  which coincides with the source exactly on the intended 32×32 inputs.
  Claims that exercise those loops are therefore stated at `n = 32`
  (the JavaScript port loops over the actual array lengths, so for it the
  general-`n` embedding is exact).
* The recursive `_flood_fill` is embedded with an explicit fuel argument
  to make the recursion structural.  The initial fuel `n*n + 2` can never
  be exhausted: along any chain of nested calls each non-leaf call marks a
  previously unvisited cell, so at depth `n*n + 1` every cell is visited
  and the call returns through the `visited` guard; the fuel-zero branch
  is unreachable from `find_flat_areas`.
-/

set_option maxHeartbeats 1000000

namespace LogiPack

/-- A square `n × n` grid of heights (numpy 2-d float array). -/
abbrev Grid (n : ℕ) := Fin n → Fin n → ℚ

/-- Absolute value on ℚ (`abs(...)` / `np.abs` / `Math.abs`), written out as
`max q (-q)` so that concrete instances reduce by `decide`; `absQ_eq_abs`
identifies it with Mathlib's `|q|` for symbolic reasoning. -/
def absQ (q : ℚ) : ℚ :=
  max q (-q)

theorem absQ_eq_abs (q : ℚ) : absQ q = |q| :=
  (abs_eq_max_neg (a := q)).symm

/-- Row-major list of all cells of a grid (numpy array flattening order). -/
def cellsList {n : ℕ} (a : Grid n) : List ℚ :=
  (List.finRange n).flatMap fun i => (List.finRange n).map fun j => a i j

/-- Maximum of a list of rationals (`np.max` / `Math.max`); the source only
applies it to non-empty data, where the fold below agrees with it. -/
def maxOfList (l : List ℚ) : ℚ :=
  l.foldl max (l.headD 0)

/-- Maximum of a list of naturals (`max(flat_areas)`). -/
def maxNatList (l : List ℕ) : ℕ :=
  l.foldl max (l.headD 0)

/-- Arithmetic mean of a list (`np.mean`). -/
def meanOfList (l : List ℚ) : ℚ :=
  l.sum / (l.length : ℚ)

/-- Population variance of a list (`np.var` / `np.std` squared). -/
def varOfList (l : List ℚ) : ℚ :=
  ((l.map fun x => (x - meanOfList l) ^ 2).sum) / (l.length : ℚ)

/-- `np.max(action_map)` over the whole grid. -/
def maxVal {n : ℕ} (a : Grid n) : ℚ :=
  maxOfList (cellsList a)

/-- `np.sum(action_map)` over the whole grid. -/
def gridSum {n : ℕ} (a : Grid n) : ℚ :=
  ∑ p : Fin n × Fin n, a p.1 p.2

/-- Height-utilization sub-score: `min(1.0, np.max(action_map))`
(`python_packer_server.py` line 47, `convert_model.py` line 115). -/
def heightUtilization {n : ℕ} (a : Grid n) : ℚ :=
  min 1 (maxVal a)

/-- Height-variance sub-score: `max(0, 1 - np.var(action_map)/0.25)`
(`python_packer_server.py` lines 50-51). -/
def heightVarianceScore {n : ℕ} (a : Grid n) : ℚ :=
  max 0 (1 - varOfList (cellsList a) / (1 / 4))

/-- Cells where the action adds height: `action_map > height_map`
(`python_packer_server.py` line 83). -/
def newlyOccupied {n : ℕ} (h a : Grid n) : Finset (Fin n × Fin n) :=
  Finset.univ.filter fun p => h p.1 p.2 < a p.1 p.2

/-- Base cells of `_calculate_support_score` (lines 87-103) and of the JS
`calculateSupportScore` (lines 144-158): a newly occupied cell stays a base
cell unless some *other* cell `(ii, jj)` of the grid — newly occupied or not —
has `action_map[ii,jj] > action_map[i,j]` and `|ii-i| <= 1 and |jj-j| <= 1`.
(The Python `break` only leaves the inner loop, but since `base_mask[i,j]`
is never reset to `True` the computed mask is exactly this filter.) -/
def baseCells {n : ℕ} (h a : Grid n) : Finset (Fin n × Fin n) :=
  (newlyOccupied h a).filter fun p =>
    ¬ ∃ q : Fin n × Fin n, q ≠ p ∧ a p.1 p.2 < a q.1 q.2 ∧
      |(q.1.val : ℤ) - (p.1.val : ℤ)| ≤ 1 ∧ |(q.2.val : ℤ) - (p.2.val : ℤ)| ≤ 1

/-- Supported base cells: `base_mask & (action_map - height_map < 0.1)`
(line 111; JS lines 162-166 count the same cells). -/
def supportedCells {n : ℕ} (h a : Grid n) : Finset (Fin n × Fin n) :=
  (baseCells h a).filter fun p => a p.1 p.2 - h p.1 p.2 < 1 / 10

/-- Common tail of both support scorers: count base cells, return 0 if none,
otherwise the (possibly penalized) support ratio (lines 105-121; JS 172-180). -/
def supportRatioScore {n : ℕ} (h a : Grid n) : ℚ :=
  if (baseCells h a).card = 0 then 0
  else if ((supportedCells h a).card : ℚ) / ((baseCells h a).card : ℚ) < 1 / 2 then
    (1 / 10) * ((((supportedCells h a).card : ℚ) / ((baseCells h a).card : ℚ)) / (1 / 2))
  else ((supportedCells h a).card : ℚ) / ((baseCells h a).card : ℚ)

/-- `PythonBinPacker._calculate_support_score` (lines 79-121): early return
1.0 when no cell is newly occupied (`if not np.any(action_cells)`), else the
base/supported ratio logic. -/
def calculate_support_score {n : ℕ} (h a : Grid n) : ℚ :=
  if newlyOccupied h a = ∅ then 1 else supportRatioScore h a

/-- `DeepPack3DModel.calculateSupportScore` (convert_model.js lines 135-181):
identical ratio logic but *no* early return — when nothing is newly occupied
it falls through to `baseCells === 0` and returns 0. -/
def calculateSupportScoreJs {n : ℕ} (h a : Grid n) : ℚ :=
  supportRatioScore h a

/-- Cells with `action_map > 0` (line 131). -/
def occupiedSet {n : ℕ} (a : Grid n) : Finset (Fin n × Fin n) :=
  Finset.univ.filter fun p => 0 < a p.1 p.2

/-- Bounding-box area of the occupied cells:
`(max_i - min_i + 1) * (max_j - min_j + 1)` (line 141), as a natural number;
0 when nothing is occupied (that case is cut off before use in the source). -/
def bboxArea {n : ℕ} (a : Grid n) : ℕ :=
  if hocc : (occupiedSet a).Nonempty then
    ((((occupiedSet a).image Prod.fst).max' (hocc.image _)).val -
        ((((occupiedSet a).image Prod.fst)).min' (hocc.image _)).val + 1) *
      ((((occupiedSet a).image Prod.snd).max' (hocc.image _)).val -
        ((((occupiedSet a).image Prod.snd)).min' (hocc.image _)).val + 1)
  else 0

/-- `PythonBinPacker._calculate_compactness` (lines 127-151) and the JS
`calculateCompactness` (lines 183-212): 0 when no cell is occupied, else
`np.sum(action_map) / ((max_i-min_i+1)*(max_j-min_j+1)*np.max(action_map))`,
guarded by `bbox_volume > 0`. -/
def calculate_compactness {n : ℕ} (a : Grid n) : ℚ :=
  if (occupiedSet a).Nonempty then
    if 0 < (bboxArea a : ℚ) * maxVal a then
      gridSum a / ((bboxArea a : ℚ) * maxVal a)
    else 0
  else 0

/-- Total indexing `height_map[i, j]` for `ℤ` indices: the source only reads
the grid after its bounds check, where this equals the array access. -/
def gridAt {n : ℕ} (hm : Grid n) (i j : ℤ) : ℚ :=
  if h : 0 ≤ i ∧ i < (n : ℤ) ∧ 0 ≤ j ∧ j < (n : ℤ) then
    hm ⟨i.toNat, by omega⟩ ⟨j.toNat, by omega⟩
  else 0

/-- `PythonBinPacker._flood_fill` (lines 212-229) / `DeepPack3DModel.floodFill`
(lines 283-301): depth-first recursion over `(i, j) : ℤ × ℤ` with bounds
check, visited check and height-tolerance check (`tolerance = 0.1`), marking
the cell and recursing on the four 4-neighbours, threading the visited set.
The `fuel` argument only makes the recursion structural; see the header. -/
def flood_fill {n : ℕ} (hm : Grid n) (target : ℚ) :
    ℕ → Finset (ℤ × ℤ) → ℤ → ℤ → ℕ × Finset (ℤ × ℤ)
  | 0, vis, _, _ => (0, vis)
  | fuel + 1, vis, i, j =>
    if 0 ≤ i ∧ i < (n : ℤ) ∧ 0 ≤ j ∧ j < (n : ℤ) then
      if (i, j) ∈ vis ∨ 1 / 10 < absQ (gridAt hm i j - target) then
        (0, vis)
      else
        let vis1 := insert (i, j) vis
        let r1 := flood_fill hm target fuel vis1 (i + 1) j
        let r2 := flood_fill hm target fuel r1.2 (i - 1) j
        let r3 := flood_fill hm target fuel r2.2 i (j + 1)
        let r4 := flood_fill hm target fuel r3.2 i (j - 1)
        (1 + r1.1 + r2.1 + r3.1 + r4.1, r4.2)
    else (0, vis)

/-- Row-major scan order of `_find_flat_areas` (`for i in range(...)`,
`for j in range(...)`). -/
def scanList (n : ℕ) : List (ℕ × ℕ) :=
  (List.range n).flatMap fun i => (List.range n).map fun j => (i, j)

/-- One step of the `_find_flat_areas` scan: seed a flood fill at an
unvisited positive cell, append the discovered area if positive. -/
def scanStep {n : ℕ} (hm : Grid n) (st : Finset (ℤ × ℤ) × List ℕ) (p : ℕ × ℕ) :
    Finset (ℤ × ℤ) × List ℕ :=
  if 0 < gridAt hm (p.1 : ℤ) (p.2 : ℤ) ∧ ((p.1 : ℤ), (p.2 : ℤ)) ∉ st.1 then
    ((flood_fill hm (gridAt hm (p.1 : ℤ) (p.2 : ℤ)) (n * n + 2) st.1 (p.1 : ℤ) (p.2 : ℤ)).2,
      st.2 ++
        if 0 < (flood_fill hm (gridAt hm (p.1 : ℤ) (p.2 : ℤ)) (n * n + 2) st.1 (p.1 : ℤ)
            (p.2 : ℤ)).1 then
          [(flood_fill hm (gridAt hm (p.1 : ℤ) (p.2 : ℤ)) (n * n + 2) st.1 (p.1 : ℤ)
            (p.2 : ℤ)).1]
        else [])
  else st

/-- `PythonBinPacker._find_flat_areas` (lines 196-210) /
`DeepPack3DModel.findFlatAreas` (lines 263-281). -/
def find_flat_areas {n : ℕ} (hm : Grid n) : List ℕ :=
  ((scanList n).foldl (scanStep hm) (∅, [])).2

/-- Same state fold, exposing the final visited set for the counting claim. -/
def find_flat_areas_state {n : ℕ} (hm : Grid n) : Finset (ℤ × ℤ) × List ℕ :=
  (scanList n).foldl (scanStep hm) (∅, [])

/-- Item volumes of the lookahead:
`[item[0]*item[1]*item[2] for item in item_features if sum(item) > 0]`
(line 173; JS lines 238-243).  Items are raw lists so that a too-short item
(`IndexError` on `item[1]`/`item[2]`) surfaces as an error, as in the source. -/
def itemSizesE (items : List (List ℚ)) : Except Unit (List ℚ) :=
  items.foldr
    (fun it acc =>
      if 0 < it.sum then
        match it.get? 0, it.get? 1, it.get? 2, acc with
        | some x, some y, some z, .ok l => .ok (x * y * z :: l)
        | _, _, _, .error e => .error e
        | _, _, _, _ => .error ()
      else acc)
    (.ok [])

/-- Flatness term: `math.exp(-np.std(non_zero_heights))` (lines 169-170). -/
noncomputable def flatnessOf (hs : List ℚ) : ℝ :=
  Real.exp (-(Real.sqrt ((varOfList hs : ℚ) : ℝ)))

/-- Common body of `_evaluate_future_items` (lines 157-190) and the JS
`evaluateFutureItems` (lines 214-261), parameterized over the non-zero
heights, the raw lookahead, and the (possibly failing) flat-area
computation.  `pyDivRaises` distinguishes the two sources at the single
point they differ: when the average future volume is 0, Python's
`/ avg_future_size` raises `ZeroDivisionError` (an error, caught by the
sub-scorer's handler), while in JS the division yields `Infinity`, so
`min(1, ...) = 1` and the best-fit term is 0. -/
noncomputable def futureCore (pyDivRaises : Bool) (hs : List ℚ)
    (items : List (List ℚ)) (flatAreasE : Except Unit (List ℕ)) :
    Except Unit ℝ :=
  if items = [] then .ok 1
  else if hs = [] then .ok (1 / 2)
  else
    let flat := flatnessOf hs
    match itemSizesE items with
    | .error _ => .error ()
    | .ok sizes =>
      if sizes = [] then .ok flat
      else
        let avg : ℚ := sizes.sum / (sizes.length : ℚ)
        match flatAreasE with
        | .error _ => .error ()
        | .ok fa =>
          if fa = [] then .ok ((7 / 10) * flat + (3 / 10) * 0)
          else if avg = 0 then
            if pyDivRaises then .error ()
            else .ok ((7 / 10) * flat + (3 / 10) * 0)
          else
            .ok ((7 / 10) * flat +
              (3 / 10) *
                ((max 0 (1 - min 1 (absQ ((maxNatList fa : ℚ) - avg) / avg)) : ℚ) : ℝ))

/-- A lookahead triple `(length, width, height)` as the raw list the source
iterates over. -/
def tripleToList (t : ℚ × ℚ × ℚ) : List ℚ :=
  [t.1, t.2.1, t.2.2]

/-- `PythonBinPacker._evaluate_future_items` (lines 157-194): the body above
on the grid's positive heights, with the `except:` handler returning 0.5. -/
noncomputable def evaluate_future_items {n : ℕ} (a : Grid n)
    (items : List (ℚ × ℚ × ℚ)) : ℝ :=
  match futureCore true ((cellsList a).filter fun x => 0 < x)
      (items.map tripleToList) (.ok (find_flat_areas a)) with
  | .ok v => v
  | .error _ => 1 / 2

/-- `DeepPack3DModel.evaluateFutureItems` (lines 214-261): same body, JS
division semantics, no exception handler (none is ever exercised). -/
noncomputable def evaluateFutureItemsJs {n : ℕ} (a : Grid n)
    (items : List (ℚ × ℚ × ℚ)) : ℝ :=
  match futureCore false ((cellsList a).filter fun x => 0 < x)
      (items.map tripleToList) (.ok (find_flat_areas a)) with
  | .ok v => v
  | .error _ => 1 / 2

/-- Weight vector of `PythonBinPacker.predict` (lines 63-69), in the order
(heightUtilization, heightVariance, support, compactness, futureItems). -/
def weightsPy : ℚ × ℚ × ℚ × ℚ × ℚ :=
  (3 / 10, 2 / 10, 3 / 10, 1 / 10, 1 / 10)

/-- Weight vector of `DeepPack3DModel.calculateHeuristic` (lines 127-132):
no variance term, and (hu, support, compactness, future) =
(0.3, 0.4, 0.2, 0.1). -/
def weightsJs : ℚ × ℚ × ℚ × ℚ × ℚ :=
  (3 / 10, 0, 4 / 10, 2 / 10, 1 / 10)

/-- Weight vector of the `model_server.py` fallback heuristic (line 142):
`0.5 * height_utilization + 0.3 * support_score + 0.2 * compactness`,
no variance and no future-items term. -/
def weightsModel : ℚ × ℚ × ℚ × ℚ × ℚ :=
  (5 / 10, 0, 3 / 10, 2 / 10, 0)

/-- `PythonBinPacker.predict` on well-shaped 32×32 inputs (lines 30-72):
the five sub-scores combined with `weightsPy`.  (The surrounding
`try/except` never fires on well-shaped input; the raw boundary layer below
models it for arbitrary inputs.) -/
noncomputable def predict (h a : Grid 32) (items : List (ℚ × ℚ × ℚ)) : ℝ :=
  ((weightsPy.1 * heightUtilization a
      + weightsPy.2.1 * heightVarianceScore a
      + weightsPy.2.2.1 * calculate_support_score h a
      + weightsPy.2.2.2.1 * calculate_compactness a : ℚ) : ℝ)
    + (weightsPy.2.2.2.2 : ℝ) * evaluate_future_items a items

/-- `DeepPack3DModel.calculateHeuristic` (lines 106-133). -/
noncomputable def calculateHeuristic (h a : Grid 32) (items : List (ℚ × ℚ × ℚ)) : ℝ :=
  ((weightsJs.1 * heightUtilization a
      + weightsJs.2.2.1 * calculateSupportScoreJs h a
      + weightsJs.2.2.2.1 * calculate_compactness a : ℚ) : ℝ)
    + (weightsJs.2.2.2.2 : ℝ) * evaluateFutureItemsJs a items

/-- Support term of the `model_server.py` fallback heuristic (lines 132-134):
`np.sum(|a - h| < 0.01) / (np.sum(a > h) + 1e-6)`. -/
def modelServerSupport {n : ℕ} (h a : Grid n) : ℚ :=
  ((Finset.univ.filter fun p : Fin n × Fin n =>
      absQ (a p.1 p.2 - h p.1 p.2) < 1 / 100).card : ℚ) /
    (((newlyOccupied h a).card : ℚ) + 1 / 1000000)

/-- Compactness term of the `model_server.py` fallback heuristic
(lines 137-139): `np.sum((h > 0) * (a > 0)) / (np.sum(a > 0) + 1e-6)`. -/
def modelServerCompactness {n : ℕ} (h a : Grid n) : ℚ :=
  (((Finset.univ.filter fun p : Fin n × Fin n =>
      0 < h p.1 p.2 ∧ 0 < a p.1 p.2).card : ℚ)) /
    (((occupiedSet a).card : ℚ) + 1 / 1000000)

/-- The `model_server.py` fallback heuristic (lines 121-142), shape-agnostic
(pure elementwise numpy), hence stated over any `n`. -/
def modelServerHeuristic {n : ℕ} (h a : Grid n) : ℚ :=
  weightsModel.1 * heightUtilization a
    + weightsModel.2.2.1 * modelServerSupport h a
    + weightsModel.2.2.2.1 * modelServerCompactness h a

/-- Instrumented copy of `flood_fill` that records the nesting depth of the
recursion (the number of simultaneously live stack frames): a call that is
cut off by a guard still occupies one frame; an executed call occupies one
frame plus the deepest of its four recursive calls.  Used only for the
stack-usage claim. -/
def flood_fill_depth {n : ℕ} (hm : Grid n) (target : ℚ) :
    ℕ → Finset (ℤ × ℤ) → ℤ → ℤ → Finset (ℤ × ℤ) × ℕ
  | 0, vis, _, _ => (vis, 0)
  | fuel + 1, vis, i, j =>
    if 0 ≤ i ∧ i < (n : ℤ) ∧ 0 ≤ j ∧ j < (n : ℤ) then
      if (i, j) ∈ vis ∨ 1 / 10 < absQ (gridAt hm i j - target) then
        (vis, 1)
      else
        let vis1 := insert (i, j) vis
        let r1 := flood_fill_depth hm target fuel vis1 (i + 1) j
        let r2 := flood_fill_depth hm target fuel r1.1 (i - 1) j
        let r3 := flood_fill_depth hm target fuel r2.1 i (j + 1)
        let r4 := flood_fill_depth hm target fuel r3.1 i (j - 1)
        (r4.1, 1 + max (max (max r1.2 r2.2) r3.2) r4.2)
    else (vis, 1)

/-! ### Concrete grids used in the claims -/

/-- A 3×3 block of height 1.0 with upper-left corner `(r, c)` in an
otherwise all-zero 32×32 grid. -/
def blockGrid (r c : ℕ) : Grid 32 := fun i j =>
  if r ≤ i.val ∧ i.val ≤ r + 2 ∧ c ≤ j.val ∧ j.val ≤ c + 2 then 1 else 0

/-- The nine cells of the 3×3 block, in the order the depth-first flood fill
marks them (innermost insert first). -/
def blockVisited (r c : ℕ) : Finset (ℤ × ℤ) :=
  insert ((r : ℤ) + 2, (c : ℤ) + 2) (insert ((r : ℤ) + 1, (c : ℤ) + 2)
    (insert ((r : ℤ), (c : ℤ) + 2) (insert ((r : ℤ), (c : ℤ) + 1)
      (insert ((r : ℤ) + 1, (c : ℤ) + 1) (insert ((r : ℤ) + 2, (c : ℤ) + 1)
        (insert ((r : ℤ) + 2, (c : ℤ)) (insert ((r : ℤ) + 1, (c : ℤ))
          (insert ((r : ℤ), (c : ℤ)) ∅))))))))

/-- A horizontal strip of `k` cells of height 1.0 along row 0 of an
otherwise all-zero `n × n` grid (one 4-connected region of `k` cells). -/
def stripGrid (n k : ℕ) : Grid n := fun i j =>
  if i.val = 0 ∧ j.val < k then 1 else 0

/-- Height map for the base-cell claim: a pre-existing stack of height 2 at
`(0, 1)`, empty elsewhere. -/
def c4height : Grid 32 := fun i j =>
  if i.val = 0 ∧ j.val = 1 then 2 else 0

/-- Action map for the base-cell claim: the stack at `(0, 1)` untouched
(not newly occupied) and one newly occupied cell of height 1 at `(0, 0)`. -/
def c4action : Grid 32 := fun i j =>
  if i.val = 0 ∧ j.val = 1 then 2 else if i.val = 0 ∧ j.val = 0 then 1 else 0

/-- Action map with two distinct positive heights 1 and 2 (positive-height
standard deviation 1/2), used for the future-items claim. -/
def c5action : Grid 2 := fun i j =>
  if i.val = 0 ∧ j.val = 0 then 1 else if i.val = 0 ∧ j.val = 1 then 2 else 0

/-! ### Raw boundary layer

`PythonBinPacker.predict` receives arbitrary JSON-decoded nested lists and
wraps its whole body in `try/except Exception: return 0.0`, while each
sub-scorer wraps its own body in `try/except` returning 0.5.  This layer
embeds that error flow over raw `List (List ℚ)` grids: a step that would
raise in numpy/Python is an `Except.error`.  Modelled numpy error
behaviour: `np.array` raises on ragged nested sequences; `x[0]` raises
`IndexError` on an empty list; `np.max` raises on an empty array;
elementwise comparison of different-shaped (non-broadcastable) arrays
raises `ValueError`; indexing `array[i, j]` beyond the shape raises
`IndexError` (which the `range(32)` loops of the support scorer and the
flat-area finder do on grids smaller than 32×32 — on larger grids they
silently process only the 32×32 corner, which `toGrid32` reproduces);
`item[2]` on a shorter item raises `IndexError`; dividing a float by zero
raises `ZeroDivisionError`. -/

/-- Shape `(rows, cols)` of a raw rectangular grid. -/
def rawDims (g : List (List ℚ)) : ℕ × ℕ :=
  (g.length, (g.headD []).length)

/-- Rectangularity check: `np.array` raises on ragged input. -/
def rawWellFormed (g : List (List ℚ)) : Bool :=
  g.all fun row => row.length == (g.headD []).length

/-- The 32×32 window of a raw grid that `range(32)` loops index (total on
grids of dimensions ≥ 32; the raw layer only applies it under that guard). -/
def toGrid32 (g : List (List ℚ)) : Grid 32 := fun i j =>
  (g.getD i.val []).getD j.val 0

/-- `np.array(x)[0]`: `IndexError` on an empty batch. -/
def extract_raw {α : Type} (x : List α) : Except Unit α :=
  match x with
  | [] => .error ()
  | g :: _ => .ok g

/-- `_calculate_support_score` body on raw grids, before its `except`
handler: shape-mismatched comparison raises; the early return fires on the
full arrays; otherwise the `range(32)` base-cell loops need both
dimensions ≥ 32 and read only the 32×32 window. -/
def support_raw (h a : List (List ℚ)) : Except Unit ℚ :=
  if rawDims h ≠ rawDims a then .error ()
  else if (h.zip a).all (fun rc => (rc.1.zip rc.2).all fun xy => decide (xy.2 ≤ xy.1)) then
    .ok 1
  else if 32 ≤ (rawDims h).1 ∧ 32 ≤ (rawDims h).2 then
    .ok (supportRatioScore (toGrid32 h) (toGrid32 a))
  else .error ()

/-- `_calculate_compactness` on raw grids (lines 127-151): pure elementwise
numpy, total for any well-formed array, any rectangular shape. -/
def compact_raw (a : List (List ℚ)) : ℚ :=
  let occ := a.enum.flatMap fun ir =>
    ir.2.enum.filterMap fun jx => if 0 < jx.2 then some (ir.1, jx.1) else none
  if occ = [] then 0
  else
    let is := occ.map Prod.fst
    let js := occ.map Prod.snd
    let minI := is.foldl min (is.headD 0)
    let maxI := is.foldl max (is.headD 0)
    let minJ := js.foldl min (js.headD 0)
    let maxJ := js.foldl max (js.headD 0)
    let bbox : ℚ := (((maxI - minI + 1) * (maxJ - minJ + 1) : ℕ) : ℚ) * maxOfList a.flatten
    let vol := (a.map List.sum).sum
    if 0 < bbox then vol / bbox else 0

/-- `_evaluate_future_items` body on raw grids, before its `except`
handler; the flat-area scan needs both dimensions ≥ 32. -/
noncomputable def future_raw (a : List (List ℚ)) (items : List (List ℚ)) :
    Except Unit ℝ :=
  futureCore true (a.flatten.filter fun x => 0 < x) items
    (if 32 ≤ (rawDims a).1 ∧ 32 ≤ (rawDims a).2 then
      .ok (find_flat_areas (toGrid32 a)) else .error ())

/-- Body of `PythonBinPacker.predict` (lines 36-72) on raw inputs, before
the outer `except` handler: extract the three arrays (`const_in` is
accepted but never read by the body, so it is omitted), take the two
`np.max` values, then combine the five sub-scores, each sub-scorer
absorbing its own errors into its 0.5 default. -/
noncomputable def predict_raw_body (hmapIn amapIn imapIn : List (List (List ℚ))) :
    Except Unit ℝ :=
  match extract_raw hmapIn with
  | .error e => .error e
  | .ok h =>
    if ¬ rawWellFormed h then .error ()
    else
      match extract_raw amapIn with
      | .error e => .error e
      | .ok a =>
        if ¬ rawWellFormed a then .error ()
        else
          match extract_raw imapIn with
          | .error e => .error e
          | .ok items =>
            if ¬ (items.all fun it => it.length == (items.headD []).length) then
              .error ()
            else if h.flatten = [] then .error ()
            else if a.flatten = [] then .error ()
            else
              let hu := min 1 (maxOfList a.flatten)
              let hv := max 0 (1 - varOfList a.flatten / (1 / 4))
              let sup := match support_raw h a with
                | .ok v => v
                | .error _ => 1 / 2
              let comp := compact_raw a
              let fut := match future_raw a items with
                | .ok v => v
                | .error _ => 1 / 2
              .ok (((weightsPy.1 * hu + weightsPy.2.1 * hv + weightsPy.2.2.1 * sup
                  + weightsPy.2.2.2.1 * comp : ℚ) : ℝ)
                + (weightsPy.2.2.2.2 : ℝ) * fut)

/-- `PythonBinPacker.predict` on raw inputs: the outer
`except Exception: return 0.0` handler around the body. -/
noncomputable def predict_raw (hmapIn amapIn imapIn : List (List (List ℚ))) : ℝ :=
  match predict_raw_body hmapIn amapIn imapIn with
  | .ok v => v
  | .error _ => 0

/-- The 4-adjacency used by the flood fill. -/
def FFAdj (p q : ℤ × ℤ) : Prop :=
  q = (p.1 + 1, p.2) ∨ q = (p.1 - 1, p.2) ∨ q = (p.1, p.2 + 1) ∨ q = (p.1, p.2 - 1)

/-- The rectangle predicate of the claim: `a` is constant `v` exactly on the
index rectangle `[r1, r2] × [c1, c2]` (its bounding box) and zero elsewhere. -/
def IsRectGrid {n : ℕ} (a : Grid n) (r1 r2 c1 c2 : ℕ) (v : ℚ) : Prop :=
  ∀ i j : Fin n, a i j =
    if r1 ≤ i.val ∧ i.val ≤ r2 ∧ c1 ≤ j.val ∧ j.val ≤ c2 then v else 0

/-! ### Toolkit lemmas about folds, constant lists and constant grids -/

theorem foldl_max_le_iff (l : List ℚ) (b c : ℚ) :
    l.foldl max b ≤ c ↔ b ≤ c ∧ ∀ x ∈ l, x ≤ c := by
  induction l generalizing b with
  | nil => simp
  | cons y ys ih => simp [List.foldl_cons, ih, max_le_iff, and_assoc]

theorem le_foldl_max (l : List ℚ) (b : ℚ) : b ≤ l.foldl max b := by
  induction l generalizing b with
  | nil => simp
  | cons y ys ih => exact le_trans (le_max_left b y) (ih (max b y))

theorem mem_le_foldl_max (l : List ℚ) (b x : ℚ) (hx : x ∈ l) :
    x ≤ l.foldl max b := by
  induction l generalizing b with
  | nil => cases hx
  | cons y ys ih =>
    rcases List.mem_cons.mp hx with rfl | hmem
    · exact le_trans (le_max_right b x) (le_foldl_max ys (max b x))
    · exact ih (max b y) hmem

theorem le_maxOfList (l : List ℚ) (x : ℚ) (hx : x ∈ l) : x ≤ maxOfList l :=
  mem_le_foldl_max l (l.headD 0) x hx

theorem maxOfList_le (l : List ℚ) (c : ℚ) (hne : l ≠ [])
    (hall : ∀ x ∈ l, x ≤ c) : maxOfList l ≤ c := by
  refine (foldl_max_le_iff l (l.headD 0) c).mpr ⟨?_, hall⟩
  cases l with
  | nil => exact absurd rfl hne
  | cons y ys => exact hall y (List.mem_cons_self y ys)

theorem flatMap_const_replicate {α β : Type} (l : List α) (k : ℕ) (v : β) :
    (l.flatMap fun _ => List.replicate k v) = List.replicate (l.length * k) v := by
  induction l with
  | nil => simp
  | cons y ys ih =>
    simp only [List.flatMap_cons, ih, List.length_cons]
    rw [← List.replicate_add]
    congr 1
    ring

theorem cellsList_const (n : ℕ) (v : ℚ) :
    cellsList (n := n) (fun _ _ => v) = List.replicate (n * n) v := by
  unfold cellsList
  have h1 : ∀ i : Fin n, ((List.finRange n).map fun _ : Fin n => v) =
      List.replicate n v := by
    intro _
    simp [List.map_const', List.length_finRange]
  calc ((List.finRange n).flatMap fun _ => (List.finRange n).map fun _ => v)
      = (List.finRange n).flatMap fun _ => List.replicate n v := by
        simp [List.map_const', List.length_finRange]
    _ = List.replicate (n * n) v := by
        rw [flatMap_const_replicate, List.length_finRange]

theorem foldl_max_self (k : ℕ) (v : ℚ) :
    (List.replicate k v).foldl max v = v := by
  induction k with
  | zero => simp
  | succ m ih => simpa [List.replicate_succ, max_self] using ih

theorem maxOfList_replicate (m : ℕ) (v : ℚ) (hm : m ≠ 0) :
    maxOfList (List.replicate m v) = v := by
  obtain ⟨k, rfl⟩ := Nat.exists_eq_succ_of_ne_zero hm
  simp only [maxOfList, List.replicate_succ, List.headD_cons, List.foldl_cons,
    max_self]
  exact foldl_max_self k v

theorem meanOfList_replicate (m : ℕ) (v : ℚ) (hm : m ≠ 0) :
    meanOfList (List.replicate m v) = v := by
  have hm' : ((m : ℚ)) ≠ 0 := Nat.cast_ne_zero.mpr hm
  simp only [meanOfList, List.sum_replicate, nsmul_eq_mul, List.length_replicate]
  field_simp

theorem varOfList_replicate (m : ℕ) (v : ℚ) :
    varOfList (List.replicate m v) = 0 := by
  rcases Nat.eq_zero_or_pos m with rfl | hm
  · simp [varOfList, meanOfList]
  · have hm0 : m ≠ 0 := Nat.pos_iff_ne_zero.mp hm
    simp [varOfList, meanOfList_replicate m v hm0, List.map_replicate]

theorem maxVal_const (n : ℕ) (v : ℚ) (hn : n ≠ 0) :
    maxVal (n := n) (fun _ _ => v) = v := by
  rw [maxVal, cellsList_const, maxOfList_replicate]
  exact Nat.mul_ne_zero hn hn

theorem gridSum_const (n : ℕ) (v : ℚ) :
    gridSum (n := n) (fun _ _ => v) = (n * n : ℕ) * v := by
  simp [gridSum, Finset.sum_const, Finset.card_univ, nsmul_eq_mul]

theorem heightVarianceScore_const (n : ℕ) (v : ℚ) :
    heightVarianceScore (n := n) (fun _ _ => v) = 1 := by
  simp [heightVarianceScore, cellsList_const, varOfList_replicate]

theorem mem_cellsList {n : ℕ} (a : Grid n) (i j : Fin n) :
    a i j ∈ cellsList a := by
  simp only [cellsList, List.mem_flatMap, List.mem_map]
  exact ⟨i, List.mem_finRange i, j, List.mem_finRange j, rfl⟩

theorem cellsList_ne_nil {n : ℕ} (a : Grid n) (hn : n ≠ 0) :
    cellsList a ≠ [] := by
  have i : Fin n := ⟨0, Nat.pos_iff_ne_zero.mpr hn⟩
  exact List.ne_nil_of_mem (mem_cellsList a i i)

theorem le_maxVal {n : ℕ} (a : Grid n) (i j : Fin n) : a i j ≤ maxVal a :=
  le_maxOfList _ _ (mem_cellsList a i j)

theorem maxVal_le {n : ℕ} (a : Grid n) (c : ℚ) (hn : n ≠ 0)
    (hall : ∀ i j, a i j ≤ c) : maxVal a ≤ c := by
  refine maxOfList_le _ c (cellsList_ne_nil a hn) ?_
  intro x hx
  simp only [cellsList, List.mem_flatMap, List.mem_map] at hx
  obtain ⟨i, -, j, -, rfl⟩ := hx
  exact hall i j

/-! ### Support-scorer lemmas -/

theorem newlyOccupied_eq_empty {n : ℕ} (h a : Grid n)
    (hle : ∀ i j, a i j ≤ h i j) : newlyOccupied h a = ∅ :=
  Finset.filter_eq_empty_iff.mpr fun p _ => not_lt.mpr (hle p.1 p.2)

theorem baseCells_subset {n : ℕ} (h a : Grid n) :
    baseCells h a ⊆ newlyOccupied h a :=
  Finset.filter_subset _ _

theorem supportedCells_subset {n : ℕ} (h a : Grid n) :
    supportedCells h a ⊆ baseCells h a :=
  Finset.filter_subset _ _

theorem supportRatioScore_nonneg {n : ℕ} (h a : Grid n) :
    0 ≤ supportRatioScore h a := by
  unfold supportRatioScore
  split
  · exact le_refl 0
  · have hratio : (0 : ℚ) ≤ ((supportedCells h a).card : ℚ) / ((baseCells h a).card : ℚ) :=
      div_nonneg (Nat.cast_nonneg _) (Nat.cast_nonneg _)
    split
    · positivity
    · exact hratio

theorem supportRatioScore_le_one {n : ℕ} (h a : Grid n) :
    supportRatioScore h a ≤ 1 := by
  unfold supportRatioScore
  split
  · exact zero_le_one
  · rename_i hcard
    have hpos : (0 : ℚ) < ((baseCells h a).card : ℚ) := by
      exact_mod_cast Nat.pos_iff_ne_zero.mpr hcard
    have hle : ((supportedCells h a).card : ℚ) ≤ ((baseCells h a).card : ℚ) := by
      exact_mod_cast Finset.card_le_card (supportedCells_subset h a)
    have hratio : ((supportedCells h a).card : ℚ) / ((baseCells h a).card : ℚ) ≤ 1 :=
      (div_le_one hpos).mpr hle
    have hratio0 : (0 : ℚ) ≤ ((supportedCells h a).card : ℚ) / ((baseCells h a).card : ℚ) :=
      div_nonneg (Nat.cast_nonneg _) (Nat.cast_nonneg _)
    split
    · rename_i hlt
      nlinarith
    · exact hratio

/-- C3 (counterexample): in the JavaScript variant, a placement with no newly
occupied cell (here `a = h` everywhere on a 1×1 grid) yields support score 0,
not 1.0: `calculateSupportScore` has no zero-newly-occupied early return and
falls through to `baseCells === 0 → 0`. -/
theorem C3_js_support_noop_counterexample :
    calculateSupportScoreJs (n := 1) (fun _ _ => 1) (fun _ _ => 1) ≠ 1 := by
  have hnew : newlyOccupied (n := 1) (fun _ _ => 1) (fun _ _ => 1) = ∅ :=
    newlyOccupied_eq_empty _ _ fun _ _ => le_refl 1
  have hbase : baseCells (n := 1) (fun _ _ => 1) (fun _ _ => 1) = ∅ := by
    have hsub := baseCells_subset (n := 1) (fun _ _ => 1) (fun _ _ => 1)
    rw [hnew] at hsub
    exact Finset.subset_empty.mp hsub
  rw [calculateSupportScoreJs, supportRatioScore]
  rw [if_pos (by rw [hbase]; rfl)]
  norm_num

/-- C3 (amended): in the `PythonBinPacker` variant, for every pair of
equal-shaped grids with no newly occupied cell the support sub-score is 1.0
(the early `if not np.any(action_cells): return 1.0`). -/
theorem C3_python_support_noop (n : ℕ) (h a : Grid n)
    (hle : ∀ i j, a i j ≤ h i j) : calculate_support_score h a = 1 := by
  rw [calculate_support_score, if_pos (newlyOccupied_eq_empty h a hle)]

/-- C3 witness: the no-op placement `a = h` on a concrete 32×32 grid. -/
theorem C3_python_support_noop_witness :
    (∀ i j : Fin 32, ((fun _ _ => (1 : ℚ)) : Grid 32) i j ≤
        ((fun _ _ => (1 : ℚ)) : Grid 32) i j) ∧
      calculate_support_score (n := 32) (fun _ _ => 1) (fun _ _ => 1) = 1 :=
  ⟨fun _ _ => le_refl 1,
    C3_python_support_noop 32 _ _ fun _ _ => le_refl 1⟩

/-! ### Base-cell characterization (claim C4) -/

theorem c4_newly :
    newlyOccupied c4height c4action = {((0 : Fin 32), (0 : Fin 32))} := by
  ext p
  simp only [newlyOccupied, Finset.mem_filter, Finset.mem_univ, true_and,
    Finset.mem_singleton, c4height, c4action]
  constructor
  · intro hlt
    split_ifs at hlt with h1 h2
    · exact absurd hlt (lt_irrefl 2)
    · obtain ⟨h21, h22⟩ := h2
      exact Prod.ext (Fin.ext (by simpa using h21)) (Fin.ext (by simpa using h22))
    · exact absurd hlt (lt_irrefl 0)
  · rintro rfl
    norm_num

theorem c4_base_empty : baseCells c4height c4action = ∅ := by
  rw [baseCells, c4_newly, Finset.filter_singleton, if_neg]
  intro hpred
  refine hpred ⟨((0 : Fin 32), (1 : Fin 32)), ?_, ?_, ?_, ?_⟩
  · intro hcontra
    have hval := congrArg (fun p : Fin 32 × Fin 32 => p.2.val) hcontra
    simp at hval
  · norm_num [c4action]
  · norm_num
  · norm_num

/-- C4 (counterexample): the claim's base-cell criterion — "no other *newly
occupied* cell within Chebyshev distance 1 has a strictly greater actionMap
value" — is false of the code at `p = (0,0)` for `c4height`/`c4action`:
the neighbouring cell `(0,1)` is *not* newly occupied (its height is
unchanged at 2), yet its greater actionMap value disqualifies `(0,0)`,
because the source compares against every cell, not just newly occupied
ones. -/
theorem C4_base_cell_counterexample :
    ¬(((0, 0) : Fin 32 × Fin 32) ∈ baseCells c4height c4action ↔
      (c4height 0 0 < c4action 0 0 ∧
        ¬∃ q : Fin 32 × Fin 32, q ≠ (0, 0) ∧
          c4height q.1 q.2 < c4action q.1 q.2 ∧
          c4action 0 0 < c4action q.1 q.2 ∧
          |(q.1.val : ℤ) - ((0 : Fin 32).val : ℤ)| ≤ 1 ∧
          |(q.2.val : ℤ) - ((0 : Fin 32).val : ℤ)| ≤ 1)) := by
  intro hiff
  have hrhs : c4height 0 0 < c4action 0 0 ∧
      ¬∃ q : Fin 32 × Fin 32, q ≠ (0, 0) ∧
        c4height q.1 q.2 < c4action q.1 q.2 ∧
        c4action 0 0 < c4action q.1 q.2 ∧
        |(q.1.val : ℤ) - ((0 : Fin 32).val : ℤ)| ≤ 1 ∧
        |(q.2.val : ℤ) - ((0 : Fin 32).val : ℤ)| ≤ 1 := by
    constructor
    · norm_num [c4height, c4action]
    · rintro ⟨q, hq, hnew, -, -, -⟩
      have hqmem : q ∈ newlyOccupied c4height c4action :=
        Finset.mem_filter.mpr ⟨Finset.mem_univ q, hnew⟩
      rw [c4_newly, Finset.mem_singleton] at hqmem
      exact hq hqmem
  have hmem := hiff.mpr hrhs
  rw [c4_base_empty] at hmem
  exact absurd hmem (Finset.not_mem_empty _)

/-- C4 (amended): a newly occupied cell is counted as a base cell iff no
other cell of the grid — newly occupied *or not* — within Chebyshev
distance 1 has a strictly greater actionMap value.  (Stated for every grid
size; the JS port loops over the actual array size, the Python loops over
`range(32)` which coincides at the intended `n = 32`.) -/
theorem C4_base_cell_characterization (n : ℕ) (h a : Grid n) (p : Fin n × Fin n) :
    p ∈ baseCells h a ↔
      (h p.1 p.2 < a p.1 p.2 ∧
        ∀ q : Fin n × Fin n, q ≠ p →
          |(q.1.val : ℤ) - (p.1.val : ℤ)| ≤ 1 →
          |(q.2.val : ℤ) - (p.2.val : ℤ)| ≤ 1 →
          a q.1 q.2 ≤ a p.1 p.2) := by
  simp only [baseCells, newlyOccupied, Finset.mem_filter, Finset.mem_univ, true_and]
  constructor
  · rintro ⟨hlt, hno⟩
    exact ⟨hlt, fun q hq hd1 hd2 =>
      not_lt.mp fun hgt => hno ⟨q, hq, hgt, hd1, hd2⟩⟩
  · rintro ⟨hlt, hall⟩
    refine ⟨hlt, ?_⟩
    rintro ⟨q, hq, hgt, hd1, hd2⟩
    exact absurd hgt (not_lt.mpr (hall q hq hd1 hd2))

/-! ### Future-items lemmas (claim C5) -/

theorem itemSizesE_sentinel (l : List (List ℚ))
    (hall : ∀ it ∈ l, ¬ 0 < it.sum) : itemSizesE l = .ok [] := by
  induction l with
  | nil => rfl
  | cons it its ih =>
    have h1 : ¬ 0 < it.sum := hall it (List.mem_cons_self it its)
    have h2 := ih fun x hx => hall x (List.mem_cons_of_mem it hx)
    simp only [itemSizesE, List.foldr_cons] at h2 ⊢
    rw [if_neg h1]
    exact h2

/-- C5 (counterexample): with at least one positive cell but a *literally
empty* lookahead list, `_evaluate_future_items` returns the constant 1.0
(`if len(item_features) == 0: return 1.0`), not the flatness term: on
`c5action` the positive heights are 1 and 2, so flatness = exp(-1/2) < 1. -/
theorem C5_empty_lookahead_counterexample :
    evaluate_future_items c5action [] ≠
      flatnessOf ((cellsList c5action).filter fun x => 0 < x) := by
  have hval : evaluate_future_items c5action [] = 1 := by
    simp [evaluate_future_items, futureCore]
  have hcells : ((cellsList c5action).filter fun x => 0 < x) = [1, 2] := by decide
  have hvar : varOfList [1, 2] = 1 / 4 := by norm_num [varOfList, meanOfList]
  have hflat : flatnessOf ((cellsList c5action).filter fun x => 0 < x) =
      Real.exp (-(1 / 2)) := by
    rw [hcells, flatnessOf, hvar]
    have h4 : Real.sqrt (((1 / 4 : ℚ)) : ℝ) = 1 / 2 := by
      rw [show (((1 / 4 : ℚ)) : ℝ) = (1 / 2) ^ 2 by norm_num]
      exact Real.sqrt_sq (by norm_num)
    rw [h4]
  rw [hval, hflat]
  intro hcontra
  have := Real.exp_lt_one_iff.mpr (by norm_num : -(1 / 2 : ℝ) < 0)
  rw [← hcontra] at this
  exact lt_irrefl 1 this

/-- C5 (amended): for every action map with at least one positive cell and a
*non-empty* lookahead consisting only of sentinel items (component sum not
positive), the future-items sub-score equals the flatness term alone,
`exp(-std(positive heights))`, the best-fit term contributing nothing; a
literally empty lookahead instead returns the constant 1.0. -/
theorem C5_sentinel_lookahead_flatness (n : ℕ) (a : Grid n)
    (items : List (ℚ × ℚ × ℚ)) (hne : items ≠ [])
    (hpos : (cellsList a).filter (fun x => 0 < x) ≠ [])
    (hsent : ∀ t ∈ items, ¬ 0 < t.1 + t.2.1 + t.2.2) :
    evaluate_future_items a items =
      flatnessOf ((cellsList a).filter fun x => 0 < x) := by
  have hmapne : items.map tripleToList ≠ [] := by
    simpa using hne
  have hsizes : itemSizesE (items.map tripleToList) = .ok [] := by
    refine itemSizesE_sentinel _ ?_
    intro it hit
    obtain ⟨t, ht, rfl⟩ := List.mem_map.mp hit
    have hts := hsent t ht
    simp only [tripleToList, List.sum_cons, List.sum_nil, add_zero]
    rw [← add_assoc]
    exact hts
  rw [evaluate_future_items, futureCore, if_neg hmapne, if_neg hpos, hsizes]
  simp

/-- C5 witness: `c5action` with the single sentinel item `(0,0,0)`. -/
theorem C5_sentinel_lookahead_flatness_witness :
    ([((0 : ℚ), (0 : ℚ), (0 : ℚ))] ≠ ([] : List (ℚ × ℚ × ℚ))) ∧
      ((cellsList c5action).filter (fun x => 0 < x) ≠ []) ∧
      (∀ t ∈ [((0 : ℚ), (0 : ℚ), (0 : ℚ))], ¬ 0 < t.1 + t.2.1 + t.2.2) ∧
      evaluate_future_items c5action [(0, 0, 0)] =
        flatnessOf ((cellsList c5action).filter fun x => 0 < x) :=
  ⟨by decide, by decide, by norm_num,
    C5_sentinel_lookahead_flatness 2 c5action [(0, 0, 0)] (by decide) (by decide)
      (by norm_num)⟩

/-! ### Compactness lemmas (claim C9) -/

theorem min'_Icc {α : Type} [LinearOrder α] [LocallyFiniteOrder α] (a b : α)
    (hab : a ≤ b) (H : (Finset.Icc a b).Nonempty) :
    (Finset.Icc a b).min' H = a :=
  le_antisymm (Finset.min'_le _ a (Finset.mem_Icc.mpr ⟨le_refl a, hab⟩))
    (Finset.le_min' _ H a fun _ hy => (Finset.mem_Icc.mp hy).1)

theorem max'_Icc {α : Type} [LinearOrder α] [LocallyFiniteOrder α] (a b : α)
    (hab : a ≤ b) (H : (Finset.Icc a b).Nonempty) :
    (Finset.Icc a b).max' H = b :=
  le_antisymm (Finset.max'_le _ H b fun _ hy => (Finset.mem_Icc.mp hy).2)
    (Finset.le_max' _ b (Finset.mem_Icc.mpr ⟨hab, le_refl b⟩))

theorem occupiedSet_rect {n : ℕ} (a : Grid n) (r1 r2 c1 c2 : ℕ) (v : ℚ)
    (hv : 0 < v) (hr1 : r1 ≤ r2) (hr2 : r2 < n) (hc1 : c1 ≤ c2) (hc2 : c2 < n)
    (ha : IsRectGrid a r1 r2 c1 c2 v) :
    occupiedSet a =
      Finset.Icc ⟨r1, lt_of_le_of_lt hr1 hr2⟩ ⟨r2, hr2⟩ ×ˢ
        Finset.Icc ⟨c1, lt_of_le_of_lt hc1 hc2⟩ ⟨c2, hc2⟩ := by
  ext p
  simp only [occupiedSet, Finset.mem_filter, Finset.mem_univ, true_and,
    Finset.mem_product, Finset.mem_Icc, Fin.le_def]
  constructor
  · intro hp
    rw [ha p.1 p.2] at hp
    split_ifs at hp with hcond
    · exact ⟨⟨hcond.1, hcond.2.1⟩, hcond.2.2.1, hcond.2.2.2⟩
    · exact absurd hp (lt_irrefl 0)
  · rintro ⟨⟨h1, h2⟩, h3, h4⟩
    rw [ha p.1 p.2, if_pos ⟨h1, h2, h3, h4⟩]
    exact hv

theorem maxVal_rect {n : ℕ} (a : Grid n) (r1 r2 c1 c2 : ℕ) (v : ℚ)
    (hv : 0 < v) (hr1 : r1 ≤ r2) (hr2 : r2 < n) (hc1 : c1 ≤ c2) (hc2 : c2 < n)
    (ha : IsRectGrid a r1 r2 c1 c2 v) : maxVal a = v := by
  have hn : n ≠ 0 := by omega
  refine le_antisymm ?_ ?_
  · refine maxVal_le a v hn ?_
    intro i j
    rw [ha i j]
    split_ifs
    · exact le_refl v
    · exact hv.le
  · have hcell := le_maxVal a ⟨r1, lt_of_le_of_lt hr1 hr2⟩ ⟨c1, lt_of_le_of_lt hc1 hc2⟩
    rw [ha] at hcell
    rw [if_pos ⟨le_refl r1, hr1, le_refl c1, hc1⟩] at hcell
    exact hcell

theorem rectCard {n : ℕ} (r1 r2 c1 c2 : ℕ)
    (hr1 : r1 ≤ r2) (hr2 : r2 < n) (hc1 : c1 ≤ c2) (hc2 : c2 < n) :
    ((Finset.Icc ⟨r1, lt_of_le_of_lt hr1 hr2⟩ (⟨r2, hr2⟩ : Fin n) ×ˢ
        Finset.Icc ⟨c1, lt_of_le_of_lt hc1 hc2⟩ (⟨c2, hc2⟩ : Fin n)).card) =
      (r2 - r1 + 1) * (c2 - c1 + 1) := by
  rw [Finset.card_product, Fin.card_Icc, Fin.card_Icc]
  have e1 : r2 + 1 - r1 = r2 - r1 + 1 := by omega
  have e2 : c2 + 1 - c1 = c2 - c1 + 1 := by omega
  show (r2 + 1 - r1) * (c2 + 1 - c1) = _
  rw [e1, e2]

theorem bboxArea_rect {n : ℕ} (a : Grid n) (r1 r2 c1 c2 : ℕ) (v : ℚ)
    (hv : 0 < v) (hr1 : r1 ≤ r2) (hr2 : r2 < n) (hc1 : c1 ≤ c2) (hc2 : c2 < n)
    (ha : IsRectGrid a r1 r2 c1 c2 v) :
    bboxArea a = (r2 - r1 + 1) * (c2 - c1 + 1) := by
  have hocc := occupiedSet_rect a r1 r2 c1 c2 v hv hr1 hr2 hc1 hc2 ha
  have hrne : (Finset.Icc (⟨r1, lt_of_le_of_lt hr1 hr2⟩ : Fin n) ⟨r2, hr2⟩).Nonempty :=
    ⟨_, Finset.mem_Icc.mpr ⟨le_refl _, Fin.mk_le_mk.mpr hr1⟩⟩
  have hcne : (Finset.Icc (⟨c1, lt_of_le_of_lt hc1 hc2⟩ : Fin n) ⟨c2, hc2⟩).Nonempty :=
    ⟨_, Finset.mem_Icc.mpr ⟨le_refl _, Fin.mk_le_mk.mpr hc1⟩⟩
  have hne : (occupiedSet a).Nonempty := by
    rw [hocc]
    exact hrne.product hcne
  rw [bboxArea, dif_pos hne]
  have hrows : (occupiedSet a).image Prod.fst =
      Finset.Icc ⟨r1, lt_of_le_of_lt hr1 hr2⟩ ⟨r2, hr2⟩ := by
    rw [hocc]
    exact Finset.product_image_fst hcne
  have hcols : (occupiedSet a).image Prod.snd =
      Finset.Icc ⟨c1, lt_of_le_of_lt hc1 hc2⟩ ⟨c2, hc2⟩ := by
    rw [hocc]
    exact Finset.product_image_snd hrne
  simp only [hrows, hcols, min'_Icc _ _ (Fin.mk_le_mk.mpr hr1),
    max'_Icc _ _ (Fin.mk_le_mk.mpr hr1), min'_Icc _ _ (Fin.mk_le_mk.mpr hc1),
    max'_Icc _ _ (Fin.mk_le_mk.mpr hc1)]

theorem gridSum_rect {n : ℕ} (a : Grid n) (r1 r2 c1 c2 : ℕ) (v : ℚ)
    (hv : 0 < v) (hr1 : r1 ≤ r2) (hr2 : r2 < n) (hc1 : c1 ≤ c2) (hc2 : c2 < n)
    (ha : IsRectGrid a r1 r2 c1 c2 v) :
    gridSum a = (((r2 - r1 + 1) * (c2 - c1 + 1) : ℕ) : ℚ) * v := by
  have hocc := occupiedSet_rect a r1 r2 c1 c2 v hv hr1 hr2 hc1 hc2 ha
  rw [gridSum]
  rw [Finset.sum_congr rfl fun p _ => ha p.1 p.2]
  rw [Finset.sum_ite, Finset.sum_const, Finset.sum_const_zero, add_zero]
  have hfilter : (Finset.univ.filter fun p : Fin n × Fin n =>
      r1 ≤ p.1.val ∧ p.1.val ≤ r2 ∧ c1 ≤ p.2.val ∧ p.2.val ≤ c2) = occupiedSet a := by
    ext p
    simp only [Finset.mem_filter, Finset.mem_univ, true_and, occupiedSet]
    constructor
    · intro hcond
      rw [ha p.1 p.2, if_pos hcond]
      exact hv
    · intro hp
      rw [ha p.1 p.2] at hp
      split_ifs at hp with hcond
      · exact hcond
      · exact absurd hp (lt_irrefl 0)
  rw [hfilter, hocc, rectCard r1 r2 c1 c2 hr1 hr2 hc1 hc2, nsmul_eq_mul]

/-- Compactness of a constant-on-its-bounding-box grid is exactly 1. -/
theorem compactness_rect {n : ℕ} (a : Grid n) (r1 r2 c1 c2 : ℕ) (v : ℚ)
    (hv : 0 < v) (hr1 : r1 ≤ r2) (hr2 : r2 < n) (hc1 : c1 ≤ c2) (hc2 : c2 < n)
    (ha : IsRectGrid a r1 r2 c1 c2 v) : calculate_compactness a = 1 := by
  have hocc := occupiedSet_rect a r1 r2 c1 c2 v hv hr1 hr2 hc1 hc2 ha
  have hne : (occupiedSet a).Nonempty := by
    rw [hocc]
    exact Finset.Nonempty.product
      ⟨_, Finset.mem_Icc.mpr ⟨le_refl _, Fin.mk_le_mk.mpr hr1⟩⟩
      ⟨_, Finset.mem_Icc.mpr ⟨le_refl _, Fin.mk_le_mk.mpr hc1⟩⟩
  have hbb := bboxArea_rect a r1 r2 c1 c2 v hv hr1 hr2 hc1 hc2 ha
  have hmv := maxVal_rect a r1 r2 c1 c2 v hv hr1 hr2 hc1 hc2 ha
  have hgs := gridSum_rect a r1 r2 c1 c2 v hv hr1 hr2 hc1 hc2 ha
  have hpos : (0 : ℚ) < (bboxArea a : ℚ) * maxVal a := by
    rw [hbb, hmv]
    have harea : (0 : ℕ) < (r2 - r1 + 1) * (c2 - c1 + 1) := by positivity
    exact mul_pos (by exact_mod_cast harea) hv
  rw [calculate_compactness, if_pos hne, if_pos hpos, hgs, hbb, hmv]
  refine div_self (ne_of_gt ?_)
  have harea : (0 : ℕ) < (r2 - r1 + 1) * (c2 - c1 + 1) := by positivity
  exact mul_pos (by exact_mod_cast harea) hv

/-- On nonnegative grids the occupied cells fit inside the bounding box. -/
theorem card_occupied_le_bboxArea {n : ℕ} (a : Grid n)
    (hne : (occupiedSet a).Nonempty) : (occupiedSet a).card ≤ bboxArea a := by
  rw [bboxArea, dif_pos hne]
  set rows := (occupiedSet a).image Prod.fst with hrows
  set cols := (occupiedSet a).image Prod.snd with hcols
  have hsubset : occupiedSet a ⊆
      Finset.Icc (rows.min' (hne.image _)) (rows.max' (hne.image _)) ×ˢ
        Finset.Icc (cols.min' (hne.image _)) (cols.max' (hne.image _)) := by
    intro p hp
    rw [Finset.mem_product, Finset.mem_Icc, Finset.mem_Icc]
    have hp1 : p.1 ∈ rows := Finset.mem_image_of_mem Prod.fst hp
    have hp2 : p.2 ∈ cols := Finset.mem_image_of_mem Prod.snd hp
    exact ⟨⟨Finset.min'_le rows p.1 hp1, Finset.le_max' rows p.1 hp1⟩,
      Finset.min'_le cols p.2 hp2, Finset.le_max' cols p.2 hp2⟩
  calc (occupiedSet a).card ≤ _ := Finset.card_le_card hsubset
    _ = _ := by
      rw [Finset.card_product, Fin.card_Icc, Fin.card_Icc]
      have h1 : (rows.min' (hne.image _)) ≤ rows.max' (hne.image _) :=
        Finset.min'_le _ _ (Finset.max'_mem _ _)
      have h2 : (cols.min' (hne.image _)) ≤ cols.max' (hne.image _) :=
        Finset.min'_le _ _ (Finset.max'_mem _ _)
      rw [Fin.le_def] at h1 h2
      have e1 : (rows.max' (hne.image _)).val + 1 - (rows.min' (hne.image _)).val =
          (rows.max' (hne.image _)).val - (rows.min' (hne.image _)).val + 1 := by omega
      have e2 : (cols.max' (hne.image _)).val + 1 - (cols.min' (hne.image _)).val =
          (cols.max' (hne.image _)).val - (cols.min' (hne.image _)).val + 1 := by omega
      rw [e1, e2]

theorem maxVal_pos_of_occupied {n : ℕ} (a : Grid n)
    (hne : (occupiedSet a).Nonempty) : 0 < maxVal a := by
  obtain ⟨p, hp⟩ := hne
  have hpos : 0 < a p.1 p.2 := (Finset.mem_filter.mp hp).2
  exact lt_of_lt_of_le hpos (le_maxVal a p.1 p.2)

theorem gridSum_le_bboxVolume {n : ℕ} (a : Grid n) (h0 : ∀ i j, 0 ≤ a i j)
    (hne : (occupiedSet a).Nonempty) :
    gridSum a ≤ (bboxArea a : ℚ) * maxVal a := by
  have hstep1 : gridSum a = ∑ p ∈ occupiedSet a, a p.1 p.2 := by
    rw [gridSum]
    refine (Finset.sum_subset (Finset.subset_univ _) ?_).symm
    intro p _ hp
    have := h0 p.1 p.2
    by_contra hne0
    exact hp (Finset.mem_filter.mpr ⟨Finset.mem_univ p, lt_of_le_of_ne this (Ne.symm hne0)⟩)
  have hstep2 : ∑ p ∈ occupiedSet a, a p.1 p.2 ≤ (occupiedSet a).card • maxVal a :=
    Finset.sum_le_card_nsmul _ _ _ fun p _ => le_maxVal a p.1 p.2
  have hstep3 : ((occupiedSet a).card : ℚ) * maxVal a ≤ (bboxArea a : ℚ) * maxVal a := by
    have hmv := maxVal_pos_of_occupied a hne
    have hcard := card_occupied_le_bboxArea a hne
    exact mul_le_mul_of_nonneg_right (by exact_mod_cast hcard) hmv.le
  rw [hstep1]
  calc ∑ p ∈ occupiedSet a, a p.1 p.2 ≤ (occupiedSet a).card • maxVal a := hstep2
    _ = ((occupiedSet a).card : ℚ) * maxVal a := nsmul_eq_mul _ _
    _ ≤ _ := hstep3

theorem compactness_nonneg {n : ℕ} (a : Grid n) (h0 : ∀ i j, 0 ≤ a i j) :
    0 ≤ calculate_compactness a := by
  rw [calculate_compactness]
  split_ifs with h1 h2
  · have hsum : 0 ≤ gridSum a := Finset.sum_nonneg fun p _ => h0 p.1 p.2
    exact div_nonneg hsum h2.le
  · exact le_refl 0
  · exact le_refl 0

theorem compactness_le_one {n : ℕ} (a : Grid n) (h0 : ∀ i j, 0 ≤ a i j) :
    calculate_compactness a ≤ 1 := by
  rw [calculate_compactness]
  split_ifs with h1 h2
  · exact (div_le_one h2).mpr (gridSum_le_bboxVolume a h0 h1)
  · exact zero_le_one
  · exact zero_le_one

/-- C9: (i) an action map that is constant positive exactly on a rectangle
(its own bounding box) and zero elsewhere has compactness exactly 1.0;
(ii) in general, whenever some cell is positive, the compactness sub-score
is `sum(actionMap) / (bboxArea * max(actionMap))` — in particular the
`bbox_volume > 0` guard is then automatically satisfied. -/
theorem C9_compactness_correct :
    (∀ (n r1 r2 c1 c2 : ℕ) (v : ℚ) (a : Grid n), 0 < v → r1 ≤ r2 → r2 < n →
      c1 ≤ c2 → c2 < n → IsRectGrid a r1 r2 c1 c2 v →
      calculate_compactness a = 1) ∧
    (∀ (n : ℕ) (a : Grid n), (∀ i j, 0 ≤ a i j) → (occupiedSet a).Nonempty →
      calculate_compactness a = gridSum a / ((bboxArea a : ℚ) * maxVal a)) := by
  constructor
  · intro n r1 r2 c1 c2 v a hv hr1 hr2 hc1 hc2 ha
    exact compactness_rect a r1 r2 c1 c2 v hv hr1 hr2 hc1 hc2 ha
  · intro n a h0 hne
    have hmv := maxVal_pos_of_occupied a hne
    have harea : 0 < bboxArea a := by
      rw [bboxArea, dif_pos hne]
      positivity
    have hpos : (0 : ℚ) < (bboxArea a : ℚ) * maxVal a :=
      mul_pos (by exact_mod_cast harea) hmv
    rw [calculate_compactness, if_pos hne, if_pos hpos]

/-- C9 witness: the 1×1 rectangle of value 2 at position (0, 1) in a 2×2
grid; its compactness is 1 and matches the general formula. -/
theorem C9_compactness_witness :
    ((0 : ℚ) < 2 ∧
      IsRectGrid (n := 2) (fun i j => if 0 ≤ i.val ∧ i.val ≤ 0 ∧ 1 ≤ j.val ∧ j.val ≤ 1 then 2 else 0) 0 0 1 1 2 ∧
      calculate_compactness (n := 2)
        (fun i j => if 0 ≤ i.val ∧ i.val ≤ 0 ∧ 1 ≤ j.val ∧ j.val ≤ 1 then 2 else 0) = 1) :=
  ⟨by norm_num, fun i j => rfl,
    C9_compactness_correct.1 2 0 0 1 1 2 _ (by norm_num) (le_refl 0) (by norm_num)
      (le_refl 1) (by norm_num) (fun i j => rfl)⟩

/-! ### Evaluations on constant grids (claims C1, C7) -/

theorem supportRatioScore_of_no_new {n : ℕ} (h a : Grid n)
    (hle : ∀ i j, a i j ≤ h i j) : supportRatioScore h a = 0 := by
  have hbase : baseCells h a = ∅ := by
    have hsub := baseCells_subset h a
    rw [newlyOccupied_eq_empty h a hle] at hsub
    exact Finset.subset_empty.mp hsub
  rw [supportRatioScore, if_pos (by rw [hbase]; rfl)]

theorem evaluate_future_items_nil {n : ℕ} (a : Grid n) :
    evaluate_future_items a [] = 1 := by
  simp [evaluate_future_items, futureCore]

theorem evaluateFutureItemsJs_nil {n : ℕ} (a : Grid n) :
    evaluateFutureItemsJs a [] = 1 := by
  simp [evaluateFutureItemsJs, futureCore]

theorem const_isRect (n : ℕ) (v : ℚ) :
    IsRectGrid (n := n) (fun _ _ => v) 0 (n - 1) 0 (n - 1) v := by
  intro i j
  rw [if_pos]
  have hi := i.isLt
  have hj := j.isLt
  exact ⟨Nat.zero_le _, by omega, Nat.zero_le _, by omega⟩

theorem compactness_const_one (n : ℕ) (v : ℚ) (hn : n ≠ 0) (hv : 0 < v) :
    calculate_compactness (n := n) (fun _ _ => v) = 1 :=
  compactness_rect _ 0 (n - 1) 0 (n - 1) v hv (Nat.zero_le _) (by omega)
    (Nat.zero_le _) (by omega) (const_isRect n v)

theorem occupiedSet_const_zero (n : ℕ) :
    occupiedSet (n := n) (fun _ _ => 0) = ∅ := by
  simp [occupiedSet]

theorem compactness_const_zero (n : ℕ) :
    calculate_compactness (n := n) (fun _ _ => 0) = 0 := by
  rw [calculate_compactness, if_neg]
  rw [occupiedSet_const_zero]
  exact Finset.not_nonempty_empty

theorem predict_const_one :
    predict (fun _ _ => 1) (fun _ _ => 1) [] = 1 := by
  rw [predict, evaluate_future_items_nil]
  rw [heightUtilization, maxVal_const 32 1 (by norm_num),
    heightVarianceScore_const,
    calculate_support_score,
    if_pos (newlyOccupied_eq_empty _ _ fun _ _ => le_refl 1),
    compactness_const_one 32 1 (by norm_num) (by norm_num)]
  norm_num [weightsPy]

theorem heuristicJs_const_one :
    calculateHeuristic (fun _ _ => 1) (fun _ _ => 1) [] = 3 / 5 := by
  rw [calculateHeuristic, evaluateFutureItemsJs_nil]
  rw [heightUtilization, maxVal_const 32 1 (by norm_num),
    calculateSupportScoreJs,
    supportRatioScore_of_no_new _ _ fun _ _ => le_refl 1,
    compactness_const_one 32 1 (by norm_num) (by norm_num)]
  norm_num [weightsJs]

/-- C7: the three scorer variants use pairwise different weight vectors, the
JS variant omits the variance term, the model-server variant omits the
future-items term, and on the concrete well-shaped input `h = a = 1`
(32×32, empty lookahead) the Python variant scores 1 while the JS variant
scores 3/5. -/
theorem C7_weight_vectors_differ :
    weightsPy ≠ weightsJs ∧ weightsPy ≠ weightsModel ∧ weightsJs ≠ weightsModel ∧
      weightsJs.2.1 = 0 ∧ weightsModel.2.2.2.2 = 0 ∧
      predict (fun _ _ => 1) (fun _ _ => 1) [] ≠
        calculateHeuristic (fun _ _ => 1) (fun _ _ => 1) [] := by
  refine ⟨?_, ?_, ?_, rfl, rfl, ?_⟩
  · intro h1
    have h2 := congrArg (fun t : ℚ × ℚ × ℚ × ℚ × ℚ => t.2.1) h1
    norm_num [weightsPy, weightsJs] at h2
  · intro h1
    have h2 := congrArg (fun t : ℚ × ℚ × ℚ × ℚ × ℚ => t.1) h1
    norm_num [weightsPy, weightsModel] at h2
  · intro h1
    have h2 := congrArg (fun t : ℚ × ℚ × ℚ × ℚ × ℚ => t.1) h1
    norm_num [weightsJs, weightsModel] at h2
  · rw [predict_const_one, heuristicJs_const_one]
    norm_num

/-- C1: on the invariant-violating input `h = 1`, `a = 0` (the action map is
*lower* than the height map at every cell), `PythonBinPacker.predict`
performs no rejection whatsoever — it silently returns the heuristic score
3/5 (support 1.0, variance 1.0, future 1.0, utilization 0, compactness 0). -/
theorem C1_invalid_placement_scored :
    ((fun _ _ => (0 : ℚ)) : Grid 32) 0 0 < ((fun _ _ => (1 : ℚ)) : Grid 32) 0 0 ∧
      predict (fun _ _ => 1) (fun _ _ => 0) [] = 3 / 5 := by
  constructor
  · norm_num
  · rw [predict, evaluate_future_items_nil]
    rw [heightUtilization, maxVal_const 32 0 (by norm_num),
      heightVarianceScore_const,
      calculate_support_score,
      if_pos (newlyOccupied_eq_empty _ _ fun _ _ => by norm_num),
      compactness_const_zero]
    norm_num [weightsPy]

/-! ### Sub-score bounds (claim C6) -/

theorem varOfList_nonneg (l : List ℚ) : 0 ≤ varOfList l := by
  refine div_nonneg ?_ (Nat.cast_nonneg _)
  refine List.sum_nonneg ?_
  intro x hx
  obtain ⟨y, -, rfl⟩ := List.mem_map.mp hx
  positivity

theorem heightUtilization_bounds {n : ℕ} (a : Grid n) (hn : n ≠ 0)
    (h0 : ∀ i j, 0 ≤ a i j) :
    0 ≤ heightUtilization a ∧ heightUtilization a ≤ 1 := by
  constructor
  · refine le_min zero_le_one ?_
    have i : Fin n := ⟨0, Nat.pos_iff_ne_zero.mpr hn⟩
    exact le_trans (h0 i i) (le_maxVal a i i)
  · exact min_le_left 1 _

theorem heightVarianceScore_bounds {n : ℕ} (a : Grid n) :
    0 ≤ heightVarianceScore a ∧ heightVarianceScore a ≤ 1 := by
  constructor
  · exact le_max_left 0 _
  · rw [heightVarianceScore, max_le_iff]
    have hvar := varOfList_nonneg (cellsList a)
    constructor
    · exact zero_le_one
    · nlinarith

theorem calculate_support_score_bounds {n : ℕ} (h a : Grid n) :
    0 ≤ calculate_support_score h a ∧ calculate_support_score h a ≤ 1 := by
  rw [calculate_support_score]
  split_ifs
  · exact ⟨zero_le_one, le_refl 1⟩
  · exact ⟨supportRatioScore_nonneg h a, supportRatioScore_le_one h a⟩

theorem absQ_nonneg (q : ℚ) : 0 ≤ absQ q := by
  rw [absQ_eq_abs]
  exact abs_nonneg q

theorem flatnessOf_bounds (hs : List ℚ) :
    0 < flatnessOf hs ∧ flatnessOf hs ≤ 1 := by
  constructor
  · exact Real.exp_pos _
  · rw [flatnessOf, Real.exp_le_one_iff]
    have := Real.sqrt_nonneg ((varOfList hs : ℚ) : ℝ)
    linarith

theorem itemSizesE_triples (items : List (ℚ × ℚ × ℚ))
    (hitems : ∀ t ∈ items, 0 ≤ t.1 ∧ 0 ≤ t.2.1 ∧ 0 ≤ t.2.2) :
    ∃ sizes : List ℚ, itemSizesE (items.map tripleToList) = .ok sizes ∧
      ∀ x ∈ sizes, 0 ≤ x := by
  induction items with
  | nil => exact ⟨[], rfl, by simp⟩
  | cons t ts ih =>
    obtain ⟨sizes, hok, hnn⟩ := ih fun x hx => hitems x (List.mem_cons_of_mem t hx)
    obtain ⟨h1, h2, h3⟩ := hitems t (List.mem_cons_self t ts)
    simp only [List.map_cons, itemSizesE, List.foldr_cons] at hok ⊢
    split_ifs with hsum
    · refine ⟨t.1 * t.2.1 * t.2.2 :: sizes, ?_, ?_⟩
      · rw [hok]
        simp [tripleToList]
      · intro x hx
        rcases List.mem_cons.mp hx with rfl | hmem
        · positivity
        · exact hnn x hmem
    · exact ⟨sizes, hok, hnn⟩

theorem futureCore_bounds (pd : Bool) (hs : List ℚ)
    (items : List (ℚ × ℚ × ℚ)) (fa : List ℕ)
    (hitems : ∀ t ∈ items, 0 ≤ t.1 ∧ 0 ≤ t.2.1 ∧ 0 ≤ t.2.2) (r : ℝ)
    (hr : futureCore pd hs (items.map tripleToList) (.ok fa) = .ok r) :
    0 ≤ r ∧ r ≤ 1 := by
  obtain ⟨sizes, hok, hnn⟩ := itemSizesE_triples items hitems
  obtain ⟨hf0, hf1⟩ := flatnessOf_bounds hs
  by_cases h1 : items.map tripleToList = []
  · rw [futureCore, if_pos h1] at hr
    injection hr with h
    subst h
    norm_num
  by_cases h2 : hs = []
  · rw [futureCore, if_neg h1, if_pos h2] at hr
    injection hr with h
    subst h
    norm_num
  rw [futureCore, if_neg h1, if_neg h2, hok] at hr
  dsimp only at hr
  by_cases h3 : sizes = []
  · rw [if_pos h3] at hr
    injection hr with h
    subst h
    exact ⟨hf0.le, hf1⟩
  rw [if_neg h3] at hr
  by_cases h4 : fa = []
  · rw [if_pos h4] at hr
    injection hr with h
    subst h
    constructor
    · positivity
    · nlinarith
  rw [if_neg h4] at hr
  by_cases h5 : sizes.sum / (sizes.length : ℚ) = 0
  · rw [if_pos h5] at hr
    cases pd with
    | true => simp at hr
    | false =>
      simp only [Bool.false_eq_true, if_false] at hr
      injection hr with h
      subst h
      constructor
      · positivity
      · nlinarith
  rw [if_neg h5] at hr
  injection hr with h
  subst h
  have havg : (0 : ℚ) < sizes.sum / (sizes.length : ℚ) := by
    have hnum : (0 : ℚ) ≤ sizes.sum := List.sum_nonneg hnn
    have hden : (0 : ℚ) ≤ (sizes.length : ℚ) := Nat.cast_nonneg _
    rcases lt_or_eq_of_le (div_nonneg hnum hden) with hlt | heq
    · exact hlt
    · exact absurd heq.symm h5
  set x : ℚ := absQ ((maxNatList fa : ℚ) - sizes.sum / (sizes.length : ℚ)) /
    (sizes.sum / (sizes.length : ℚ)) with hx
  have hx0 : 0 ≤ x := div_nonneg (absQ_nonneg _) havg.le
  have hbf0 : (0 : ℚ) ≤ max 0 (1 - min 1 x) := le_max_left 0 _
  have hbf1 : max 0 (1 - min 1 x) ≤ 1 := by
    rw [max_le_iff]
    refine ⟨zero_le_one, ?_⟩
    have hmin : (0 : ℚ) ≤ min 1 x := le_min zero_le_one hx0
    linarith
  have hbf0' : (0 : ℝ) ≤ ((max 0 (1 - min 1 x) : ℚ) : ℝ) := by exact_mod_cast hbf0
  have hbf1' : ((max 0 (1 - min 1 x) : ℚ) : ℝ) ≤ 1 := by exact_mod_cast hbf1
  constructor
  · positivity
  · nlinarith

theorem evaluate_future_items_bounds {n : ℕ} (a : Grid n)
    (items : List (ℚ × ℚ × ℚ))
    (hitems : ∀ t ∈ items, 0 ≤ t.1 ∧ 0 ≤ t.2.1 ∧ 0 ≤ t.2.2) :
    0 ≤ evaluate_future_items a items ∧ evaluate_future_items a items ≤ 1 := by
  rw [evaluate_future_items]
  rcases hcase : futureCore true ((cellsList a).filter fun x => 0 < x)
      (items.map tripleToList) (.ok (find_flat_areas a)) with v | r
  · norm_num
  · exact futureCore_bounds true _ items _ hitems r hcase

theorem evaluateFutureItemsJs_bounds {n : ℕ} (a : Grid n)
    (items : List (ℚ × ℚ × ℚ))
    (hitems : ∀ t ∈ items, 0 ≤ t.1 ∧ 0 ≤ t.2.1 ∧ 0 ≤ t.2.2) :
    0 ≤ evaluateFutureItemsJs a items ∧ evaluateFutureItemsJs a items ≤ 1 := by
  rw [evaluateFutureItemsJs]
  rcases hcase : futureCore false ((cellsList a).filter fun x => 0 < x)
      (items.map tripleToList) (.ok (find_flat_areas a)) with v | r
  · norm_num
  · exact futureCore_bounds false _ items _ hitems r hcase

/-- C6 (counterexample): the `model_server.py` fallback heuristic is *not*
bounded by 1.  On `h = a = [[1]]` its support term is
`1 / (0 + 1e-6) = 10⁶`, so the weighted combination exceeds 1 by orders of
magnitude. -/
theorem C6_model_server_unbounded :
    1 < modelServerHeuristic (n := 1) (fun _ _ => 1) (fun _ _ => 1) := by
  have hsup : modelServerSupport (n := 1) (fun _ _ => 1) (fun _ _ => 1) = 1000000 := by
    rw [modelServerSupport, newlyOccupied_eq_empty _ _ fun _ _ => le_refl 1]
    rw [Finset.filter_true_of_mem]
    · rw [Finset.card_univ]
      norm_num [absQ]
    · intro p _
      norm_num [absQ]
  have hcomp : modelServerCompactness (n := 1) (fun _ _ => 1) (fun _ _ => 1) =
      1000000 / 1000001 := by
    rw [modelServerCompactness, occupiedSet]
    rw [Finset.filter_true_of_mem (fun p _ => ⟨zero_lt_one, zero_lt_one⟩),
      Finset.filter_true_of_mem (fun p _ => zero_lt_one)]
    rw [Finset.card_univ]
    norm_num
  have hhu : heightUtilization (n := 1) (fun _ _ => 1) = 1 := by
    rw [heightUtilization, maxVal_const 1 1 (by norm_num)]
    norm_num
  rw [modelServerHeuristic, hsup, hcomp, hhu]
  norm_num [weightsModel]

/-- C6 (amended): in the `PythonBinPacker` and `DeepPack3DModel` variants
every sub-score lies in [0,1] for well-shaped nonnegative input, and hence
so do their weighted combinations (weights are nonnegative and sum to 1);
the model-server fallback's support sub-score, however, is unbounded. -/
theorem C6_subscores_bounded (h a : Grid 32) (items : List (ℚ × ℚ × ℚ))
    (h0a : ∀ i j, 0 ≤ a i j)
    (hitems : ∀ t ∈ items, 0 ≤ t.1 ∧ 0 ≤ t.2.1 ∧ 0 ≤ t.2.2) :
    (0 ≤ heightUtilization a ∧ heightUtilization a ≤ 1) ∧
      (0 ≤ heightVarianceScore a ∧ heightVarianceScore a ≤ 1) ∧
      (0 ≤ calculate_support_score h a ∧ calculate_support_score h a ≤ 1) ∧
      (0 ≤ calculateSupportScoreJs h a ∧ calculateSupportScoreJs h a ≤ 1) ∧
      (0 ≤ calculate_compactness a ∧ calculate_compactness a ≤ 1) ∧
      (0 ≤ evaluate_future_items a items ∧ evaluate_future_items a items ≤ 1) ∧
      (0 ≤ evaluateFutureItemsJs a items ∧ evaluateFutureItemsJs a items ≤ 1) ∧
      (0 ≤ predict h a items ∧ predict h a items ≤ 1) ∧
      (0 ≤ calculateHeuristic h a items ∧ calculateHeuristic h a items ≤ 1) := by
  obtain ⟨hu0, hu1⟩ := heightUtilization_bounds a (by norm_num) h0a
  obtain ⟨hv0, hv1⟩ := heightVarianceScore_bounds a
  obtain ⟨hs0, hs1⟩ := calculate_support_score_bounds h a
  have hj0 : 0 ≤ calculateSupportScoreJs h a := supportRatioScore_nonneg h a
  have hj1 : calculateSupportScoreJs h a ≤ 1 := supportRatioScore_le_one h a
  have hc0 : 0 ≤ calculate_compactness a := compactness_nonneg a h0a
  have hc1 : calculate_compactness a ≤ 1 := compactness_le_one a h0a
  obtain ⟨hf0, hf1⟩ := evaluate_future_items_bounds a items hitems
  obtain ⟨hg0, hg1⟩ := evaluateFutureItemsJs_bounds a items hitems
  refine ⟨⟨hu0, hu1⟩, ⟨hv0, hv1⟩, ⟨hs0, hs1⟩, ⟨hj0, hj1⟩, ⟨hc0, hc1⟩,
    ⟨hf0, hf1⟩, ⟨hg0, hg1⟩, ?_, ?_⟩
  · rw [predict, weightsPy]
    have hu0' : (0 : ℝ) ≤ (heightUtilization a : ℝ) := by exact_mod_cast hu0
    have hu1' : (heightUtilization a : ℝ) ≤ 1 := by exact_mod_cast hu1
    have hv0' : (0 : ℝ) ≤ (heightVarianceScore a : ℝ) := by exact_mod_cast hv0
    have hv1' : (heightVarianceScore a : ℝ) ≤ 1 := by exact_mod_cast hv1
    have hs0' : (0 : ℝ) ≤ (calculate_support_score h a : ℝ) := by exact_mod_cast hs0
    have hs1' : (calculate_support_score h a : ℝ) ≤ 1 := by exact_mod_cast hs1
    have hc0' : (0 : ℝ) ≤ (calculate_compactness a : ℝ) := by exact_mod_cast hc0
    have hc1' : (calculate_compactness a : ℝ) ≤ 1 := by exact_mod_cast hc1
    constructor
    · push_cast
      nlinarith
    · push_cast
      nlinarith
  · rw [calculateHeuristic, weightsJs]
    have hu0' : (0 : ℝ) ≤ (heightUtilization a : ℝ) := by exact_mod_cast hu0
    have hu1' : (heightUtilization a : ℝ) ≤ 1 := by exact_mod_cast hu1
    have hj0' : (0 : ℝ) ≤ (calculateSupportScoreJs h a : ℝ) := by exact_mod_cast hj0
    have hj1' : (calculateSupportScoreJs h a : ℝ) ≤ 1 := by exact_mod_cast hj1
    have hc0' : (0 : ℝ) ≤ (calculate_compactness a : ℝ) := by exact_mod_cast hc0
    have hc1' : (calculate_compactness a : ℝ) ≤ 1 := by exact_mod_cast hc1
    constructor
    · push_cast
      nlinarith
    · push_cast
      nlinarith

/-- C6 witness: constant grids of height 1 with one unit lookahead item. -/
theorem C6_subscores_bounded_witness :
    (∀ i j : Fin 32, (0 : ℚ) ≤ ((fun _ _ => 1) : Grid 32) i j) ∧
      (∀ t ∈ [((1 : ℚ), (1 : ℚ), (1 : ℚ))], 0 ≤ t.1 ∧ 0 ≤ t.2.1 ∧ 0 ≤ t.2.2) ∧
      (0 ≤ predict (fun _ _ => 1) (fun _ _ => 1) [(1, 1, 1)] ∧
        predict (fun _ _ => 1) (fun _ _ => 1) [(1, 1, 1)] ≤ 1) :=
  ⟨fun _ _ => zero_le_one, by norm_num,
    (C6_subscores_bounded (fun _ _ => 1) (fun _ _ => 1) [(1, 1, 1)]
      (fun _ _ => zero_le_one) (by norm_num)).2.2.2.2.2.2.2.1⟩

/-! ### Error absorption of the raw boundary (claim C10) -/

theorem extract_raw_cons {α : Type} (x : α) (xs : List α) :
    extract_raw (x :: xs) = .ok x := rfl

theorem support_raw_mismatch :
    support_raw [[1, 1], [1, 1]] [[2, 2, 2], [2, 2, 2], [2, 2, 2]] = .error () := by
  rw [support_raw, if_pos]
  norm_num [rawDims]

theorem compact_raw_const3 :
    compact_raw [[2, 2, 2], [2, 2, 2], [2, 2, 2]] = 1 := by
  rw [compact_raw]
  norm_num [List.enum, List.enumFrom, List.flatMap_cons, List.filterMap_cons,
    maxOfList, List.flatten]
  simp

theorem compact_raw_const2 :
    compact_raw [[1, 1], [1, 1]] = 1 := by
  rw [compact_raw]
  norm_num [List.enum, List.enumFrom, List.flatMap_cons, List.filterMap_cons,
    maxOfList, List.flatten]
  simp

theorem compact_raw_row12 :
    compact_raw [[1, 2]] = 3 / 4 := by
  rw [compact_raw]
  norm_num [List.enum, List.enumFrom, List.flatMap_cons, List.filterMap_cons,
    maxOfList, List.flatten]
  simp

theorem future_raw_nil (a : List (List ℚ)) : future_raw a [] = .ok 1 := by
  rw [future_raw, futureCore, if_pos rfl]

theorem support_raw_noop2 :
    support_raw [[1, 1], [1, 1]] [[1, 1], [1, 1]] = .ok 1 := by
  rw [support_raw, if_neg (by norm_num [rawDims]), if_pos]
  norm_num

theorem support_raw_noop12 :
    support_raw [[1, 2]] [[1, 2]] = .ok 1 := by
  rw [support_raw, if_neg (by norm_num [rawDims]), if_pos]
  norm_num

theorem itemSizesE_arity : itemSizesE [[2]] = .error () := by
  rw [itemSizesE]
  norm_num [List.foldr]

theorem future_raw_arity :
    future_raw [[1, 1], [1, 1]] [[2]] = .error () := by
  rw [future_raw, futureCore, if_neg (by norm_num),
    if_neg (by simp [List.flatten]), itemSizesE_arity]

/-- C10: `predict` never surfaces an exception: every run of the body either
succeeds and its value is returned, or fails internally and the outer
handler returns the constant 0.0; concretely, ill-shaped inputs are
silently scored — mismatched 2×2/3×3 grids score 17/20 with the support
scorer silently replaced by its 0.5 error default, a lookahead item of
arity 1 scores 19/20 with the future scorer silently replaced by its 0.5
default, an empty height-map batch triggers the outer handler and returns
0.0, and a non-square 1×2 grid is scored normally (31/40). -/
theorem C10_predict_never_raises :
    (∀ hm am im : List (List (List ℚ)),
      (∃ v, predict_raw_body hm am im = .ok v ∧ predict_raw hm am im = v) ∨
        (∃ e, predict_raw_body hm am im = .error e ∧ predict_raw hm am im = 0)) ∧
      predict_raw [[[1, 1], [1, 1]]] [[[2, 2, 2], [2, 2, 2], [2, 2, 2]]] [[]] = 17 / 20 ∧
      predict_raw [[[1, 1], [1, 1]]] [[[1, 1], [1, 1]]] [[[2]]] = 19 / 20 ∧
      predict_raw [] [[[1]]] [[]] = 0 ∧
      predict_raw [[[1, 2]]] [[[1, 2]]] [[]] = 31 / 40 := by
  refine ⟨?_, ?_, ?_, ?_, ?_⟩
  · intro hm am im
    rcases hbody : predict_raw_body hm am im with e | v
    · right
      exact ⟨e, rfl, by rw [predict_raw, hbody]⟩
    · left
      exact ⟨v, rfl, by rw [predict_raw, hbody]⟩
  · have hbody : predict_raw_body [[[1, 1], [1, 1]]]
        [[[2, 2, 2], [2, 2, 2], [2, 2, 2]]] [[]] = .ok (17 / 20) := by
      rw [predict_raw_body]
      simp only [extract_raw_cons, support_raw_mismatch, compact_raw_const3,
        future_raw_nil]
      norm_num [rawWellFormed, List.flatten, maxOfList, varOfList, meanOfList,
        weightsPy]
      simp
    rw [predict_raw, hbody]
  · have hbody : predict_raw_body [[[1, 1], [1, 1]]] [[[1, 1], [1, 1]]] [[[2]]] =
        .ok (19 / 20) := by
      rw [predict_raw_body]
      simp only [extract_raw_cons, support_raw_noop2, compact_raw_const2,
        future_raw_arity]
      norm_num [rawWellFormed, List.flatten, maxOfList, varOfList, meanOfList,
        weightsPy]
      simp
    rw [predict_raw, hbody]
  · have hbody : predict_raw_body [] [[[1]]] [[]] = .error () := rfl
    rw [predict_raw, hbody]
  · have hbody : predict_raw_body [[[1, 2]]] [[[1, 2]]] [[]] = .ok (31 / 40) := by
      rw [predict_raw_body]
      simp only [extract_raw_cons, support_raw_noop12, compact_raw_row12,
        future_raw_nil]
      norm_num [rawWellFormed, List.flatten, maxOfList, varOfList, meanOfList,
        weightsPy]
      simp
    rw [predict_raw, hbody]

/-! ### Recursion depth of the flood fill (claim C2) -/

theorem fdepth_out_of_bounds {n : ℕ} (hm : Grid n) (t : ℚ) (fuel : ℕ)
    (vis : Finset (ℤ × ℤ)) (i j : ℤ)
    (h : ¬(0 ≤ i ∧ i < (n : ℤ) ∧ 0 ≤ j ∧ j < (n : ℤ))) :
    flood_fill_depth hm t (fuel + 1) vis i j = (vis, 1) := by
  rw [flood_fill_depth, if_neg h]

theorem fdepth_guard {n : ℕ} (hm : Grid n) (t : ℚ) (fuel : ℕ)
    (vis : Finset (ℤ × ℤ)) (i j : ℤ)
    (hb : 0 ≤ i ∧ i < (n : ℤ) ∧ 0 ≤ j ∧ j < (n : ℤ))
    (hg : (i, j) ∈ vis ∨ 1 / 10 < absQ (gridAt hm i j - t)) :
    flood_fill_depth hm t (fuel + 1) vis i j = (vis, 1) := by
  rw [flood_fill_depth, if_pos hb, if_pos hg]

theorem gridAt_strip (n k : ℕ) (i j : ℤ)
    (hb : 0 ≤ i ∧ i < (n : ℤ) ∧ 0 ≤ j ∧ j < (n : ℤ)) :
    gridAt (stripGrid n k) i j = if i = 0 ∧ j < (k : ℤ) then 1 else 0 := by
  rw [gridAt, dif_pos hb]
  by_cases hc : i = 0 ∧ j < (k : ℤ)
  · rw [if_pos hc, stripGrid, if_pos]
    exact ⟨show i.toNat = 0 by omega, show j.toNat < k by omega⟩
  · rw [if_neg hc, stripGrid, if_neg]
    rintro ⟨h1, h2⟩
    have h1' : i.toNat = 0 := h1
    have h2' : j.toNat < k := h2
    exact hc (by omega)

theorem strip_depth_aux (n k : ℕ) (hk : k ≤ n) :
    ∀ (fuel j : ℕ) (vis : Finset (ℤ × ℤ)), j < k → k - j ≤ fuel + 1 →
      (∀ t : ℕ, j ≤ t → ((0 : ℤ), (t : ℤ)) ∉ vis) →
      k - j ≤ (flood_fill_depth (stripGrid n k) 1 (fuel + 1) vis 0 (j : ℤ)).2 := by
  intro fuel
  induction fuel with
  | zero =>
    intro j vis hj hfuel hvis
    have hb : (0 : ℤ) ≤ 0 ∧ (0 : ℤ) < (n : ℤ) ∧ 0 ≤ (j : ℤ) ∧ (j : ℤ) < (n : ℤ) := by
      omega
    rw [flood_fill_depth, if_pos hb, if_neg ?hguard0]
    case hguard0 =>
      rintro (hmem | htol)
      · exact hvis j (le_refl j) hmem
      · rw [gridAt_strip n k 0 j hb, if_pos ⟨rfl, by omega⟩] at htol
        norm_num [absQ] at htol
    dsimp only
    omega
  | succ fuel ih =>
    intro j vis hj hfuel hvis
    have hb : (0 : ℤ) ≤ 0 ∧ (0 : ℤ) < (n : ℤ) ∧ 0 ≤ (j : ℤ) ∧ (j : ℤ) < (n : ℤ) := by
      omega
    rw [flood_fill_depth, if_pos hb, if_neg ?hguard]
    case hguard =>
      rintro (hmem | htol)
      · exact hvis j (le_refl j) hmem
      · rw [gridAt_strip n k 0 j hb, if_pos ⟨rfl, by omega⟩] at htol
        norm_num [absQ] at htol
    dsimp only
    rcases Nat.lt_or_ge (j + 1) k with hj1 | hj1
    · have h1 : flood_fill_depth (stripGrid n k) 1 (fuel + 1)
          (insert ((0 : ℤ), (j : ℤ)) vis) ((0 : ℤ) + 1) (j : ℤ) =
          (insert ((0 : ℤ), (j : ℤ)) vis, 1) := by
        by_cases hb1 : (0 : ℤ) ≤ (0 : ℤ) + 1 ∧ (0 : ℤ) + 1 < (n : ℤ) ∧
            0 ≤ (j : ℤ) ∧ (j : ℤ) < (n : ℤ)
        · refine fdepth_guard _ _ _ _ _ _ hb1 (Or.inr ?_)
          rw [gridAt_strip n k ((0 : ℤ) + 1) j hb1, if_neg (by omega)]
          norm_num [absQ]
        · exact fdepth_out_of_bounds _ _ _ _ _ _ hb1
      rw [h1]
      dsimp only
      have h2 : flood_fill_depth (stripGrid n k) 1 (fuel + 1)
          (insert ((0 : ℤ), (j : ℤ)) vis) ((0 : ℤ) - 1) (j : ℤ) =
          (insert ((0 : ℤ), (j : ℤ)) vis, 1) :=
        fdepth_out_of_bounds _ _ _ _ _ _ (by omega)
      rw [h2]
      dsimp only
      have hvis1 : ∀ t : ℕ, j + 1 ≤ t →
          ((0 : ℤ), (t : ℤ)) ∉ insert ((0 : ℤ), (j : ℤ)) vis := by
        intro t ht
        rw [Finset.mem_insert]
        rintro (heq | hmem)
        · have hsnd := congrArg Prod.snd heq
          simp only [] at hsnd
          omega
        · exact hvis t (by omega) hmem
      have h3 := ih (j + 1) (insert ((0 : ℤ), (j : ℤ)) vis) hj1 (by omega) hvis1
      have hcast : (((j + 1 : ℕ)) : ℤ) = ((j : ℤ) + 1) := by omega
      rw [hcast] at h3
      set d3 := (flood_fill_depth (stripGrid n k) 1 (fuel + 1)
        (insert ((0 : ℤ), (j : ℤ)) vis) 0 ((j : ℤ) + 1)) with hd3
      have hmax : d3.2 ≤ max (max (max 1 1) d3.2)
          (flood_fill_depth (stripGrid n k) 1 (fuel + 1) d3.1 0 ((j : ℤ) - 1)).2 :=
        le_trans (le_max_right (max 1 1) d3.2) (le_max_left _ _)
      omega
    · omega

/-- C2: the flood fill of the source is recursive, not iterative — its
auxiliary stack-frame usage is *not* O(1): on a horizontal strip of `k`
cells (a single 4-connected region of size `k`, `k ≤ n`), the nesting
depth of `_flood_fill` started at the strip's left end is at least `k`,
i.e. it grows linearly with the region size. -/
theorem C2_flood_fill_depth_grows (n k : ℕ) (hk1 : 1 ≤ k) (hk : k ≤ n) :
    k ≤ (flood_fill_depth (stripGrid n k) 1 (n * n + 2) ∅ 0 0).2 := by
  obtain ⟨f, hf⟩ : ∃ f, n * n + 2 = f + 1 := ⟨n * n + 1, rfl⟩
  rw [hf]
  have hnn : k ≤ f + 1 := by
    rcases Nat.eq_zero_or_pos n with rfl | hp
    · omega
    · nlinarith
  have := strip_depth_aux n k hk f 0 ∅ (by omega) (by omega)
    (fun t _ => Finset.not_mem_empty _)
  simpa using this

/-- C2 witness: a strip of 5 cells in a 5×5 grid already nests ≥ 5 frames. -/
theorem C2_flood_fill_depth_witness :
    1 ≤ 5 ∧ 5 ≤ 5 ∧ 5 ≤ (flood_fill_depth (stripGrid 5 5) 1 (5 * 5 + 2) ∅ 0 0).2 :=
  ⟨by norm_num, le_refl 5, C2_flood_fill_depth_grows 5 5 (by norm_num) (le_refl 5)⟩

/-! ### Flood-fill lemmas (claim C8) -/

theorem ff_reject_any {n : ℕ} (hm : Grid n) (t : ℚ) (fuel : ℕ)
    (vis : Finset (ℤ × ℤ)) (i j : ℤ)
    (h : ¬(0 ≤ i ∧ i < (n : ℤ) ∧ 0 ≤ j ∧ j < (n : ℤ)) ∨ (i, j) ∈ vis ∨
      1 / 10 < absQ (gridAt hm i j - t)) :
    flood_fill hm t fuel vis i j = (0, vis) := by
  cases fuel with
  | zero => rfl
  | succ f =>
    rcases h with hb | hg
    · rw [flood_fill, if_neg hb]
    · by_cases hb : 0 ≤ i ∧ i < (n : ℤ) ∧ 0 ≤ j ∧ j < (n : ℤ)
      · rw [flood_fill, if_pos hb, if_pos hg]
      · rw [flood_fill, if_neg hb]

theorem ff_card {n : ℕ} (hm : Grid n) (t : ℚ) : ∀ (fuel : ℕ)
    (vis : Finset (ℤ × ℤ)) (i j : ℤ),
    (flood_fill hm t fuel vis i j).1 + vis.card =
      (flood_fill hm t fuel vis i j).2.card := by
  intro fuel
  induction fuel with
  | zero =>
    intro vis i j
    simp [flood_fill]
  | succ f ih =>
    intro vis i j
    rw [flood_fill]
    split_ifs with hb hg
    · simp
    · dsimp only
      have hnmem : (i, j) ∉ vis := fun hmem => hg (Or.inl hmem)
      have hins : (insert (i, j) vis).card = vis.card + 1 :=
        Finset.card_insert_of_not_mem hnmem
      have e1 := ih (insert (i, j) vis) (i + 1) j
      have e2 := ih (flood_fill hm t f (insert (i, j) vis) (i + 1) j).2 (i - 1) j
      have e3 := ih (flood_fill hm t f
        (flood_fill hm t f (insert (i, j) vis) (i + 1) j).2 (i - 1) j).2 i (j + 1)
      have e4 := ih (flood_fill hm t f (flood_fill hm t f
        (flood_fill hm t f (insert (i, j) vis) (i + 1) j).2 (i - 1) j).2 i (j + 1)).2
        i (j - 1)
      omega
    · simp

theorem ff_new_cells {n : ℕ} (hm : Grid n) (t : ℚ) : ∀ (fuel : ℕ)
    (vis : Finset (ℤ × ℤ)) (i j : ℤ) (p : ℤ × ℤ),
    p ∈ (flood_fill hm t fuel vis i j).2 → p ∉ vis →
      0 ≤ p.1 ∧ p.1 < (n : ℤ) ∧ 0 ≤ p.2 ∧ p.2 < (n : ℤ) ∧
        absQ (gridAt hm p.1 p.2 - t) ≤ 1 / 10 := by
  intro fuel
  induction fuel with
  | zero =>
    intro vis i j p hp hnp
    exact absurd hp hnp
  | succ f ih =>
    intro vis i j p hp hnp
    rw [flood_fill] at hp
    split_ifs at hp with hb hg
    · exact absurd hp hnp
    · dsimp only at hp
      by_cases hp3 : p ∈ (flood_fill hm t f (flood_fill hm t f
          (flood_fill hm t f (insert (i, j) vis) (i + 1) j).2 (i - 1) j).2 i (j + 1)).2
      · by_cases hp2 : p ∈ (flood_fill hm t f
            (flood_fill hm t f (insert (i, j) vis) (i + 1) j).2 (i - 1) j).2
        · by_cases hp1 : p ∈ (flood_fill hm t f (insert (i, j) vis) (i + 1) j).2
          · by_cases hpv : p ∈ insert (i, j) vis
            · have hpij : p = (i, j) := by
                rcases Finset.mem_insert.mp hpv with heq | hmem
                · exact heq
                · exact absurd hmem hnp
              subst hpij
              have htol : ¬(1 / 10 < absQ (gridAt hm i j - t)) := fun ht =>
                hg (Or.inr ht)
              exact ⟨hb.1, hb.2.1, hb.2.2.1, hb.2.2.2, not_lt.mp htol⟩
            · exact ih (insert (i, j) vis) (i + 1) j p hp1 hpv
          · exact ih _ (i - 1) j p hp2 hp1
        · exact ih _ i (j + 1) p hp3 hp2
      · exact ih _ i (j - 1) p hp hp3
    · exact absurd hp hnp

theorem scan_skip {n : ℕ} (hm : Grid n) : ∀ (l : List (ℕ × ℕ))
    (st : Finset (ℤ × ℤ) × List ℕ),
    (∀ p ∈ l, ¬(0 < gridAt hm (p.1 : ℤ) (p.2 : ℤ)) ∨
      ((p.1 : ℤ), (p.2 : ℤ)) ∈ st.1) →
    l.foldl (scanStep hm) st = st := by
  intro l
  induction l with
  | nil => intro st _; rfl
  | cons p ps ih =>
    intro st hskip
    rw [List.foldl_cons]
    have hstep : scanStep hm st p = st := by
      rw [scanStep, if_neg]
      rintro ⟨hpos, hnmem⟩
      rcases hskip p (List.mem_cons_self p ps) with h | h
      · exact h hpos
      · exact hnmem h
    rw [hstep]
    exact ih st fun q hq => hskip q (List.mem_cons_of_mem _ hq)

theorem scanStep_sum {n : ℕ} (hm : Grid n) (st : Finset (ℤ × ℤ) × List ℕ)
    (p : ℕ × ℕ) :
    (scanStep hm st p).2.sum + st.1.card =
      st.2.sum + (scanStep hm st p).1.card := by
  rw [scanStep]
  have hcard := ff_card hm (gridAt hm (p.1 : ℤ) (p.2 : ℤ)) (n * n + 2) st.1
    (p.1 : ℤ) (p.2 : ℤ)
  split_ifs with hcond harea
  · simp only [List.sum_append, List.sum_cons, List.sum_nil]
    omega
  · simp only [List.append_nil]
    omega
  · rfl

theorem scan_sum {n : ℕ} (hm : Grid n) : ∀ (l : List (ℕ × ℕ))
    (st : Finset (ℤ × ℤ) × List ℕ),
    (l.foldl (scanStep hm) st).2.sum + st.1.card =
      st.2.sum + (l.foldl (scanStep hm) st).1.card := by
  intro l
  induction l with
  | nil => intro st; rfl
  | cons p ps ih =>
    intro st
    rw [List.foldl_cons]
    have h1 := scanStep_sum hm st p
    have h2 := ih (scanStep hm st p)
    omega

theorem scan_visited_bounds {n : ℕ} (hm : Grid n) : ∀ (l : List (ℕ × ℕ))
    (st : Finset (ℤ × ℤ) × List ℕ),
    (∀ q ∈ st.1, 0 ≤ q.1 ∧ q.1 < (n : ℤ) ∧ 0 ≤ q.2 ∧ q.2 < (n : ℤ)) →
    ∀ q ∈ (l.foldl (scanStep hm) st).1,
      0 ≤ q.1 ∧ q.1 < (n : ℤ) ∧ 0 ≤ q.2 ∧ q.2 < (n : ℤ) := by
  intro l
  induction l with
  | nil => intro st hst q hq; exact hst q hq
  | cons p ps ih =>
    intro st hst
    rw [List.foldl_cons]
    refine ih (scanStep hm st p) ?_
    intro q hq
    rw [scanStep] at hq
    split_ifs at hq with hcond harea
    · dsimp only at hq
      by_cases hqold : q ∈ st.1
      · exact hst q hqold
      · have hnew := ff_new_cells hm (gridAt hm (p.1 : ℤ) (p.2 : ℤ)) (n * n + 2) st.1
          (p.1 : ℤ) (p.2 : ℤ) q hq hqold
        exact ⟨hnew.1, hnew.2.1, hnew.2.2.1, hnew.2.2.2.1⟩
    · dsimp only at hq
      by_cases hqold : q ∈ st.1
      · exact hst q hqold
      · have hnew := ff_new_cells hm (gridAt hm (p.1 : ℤ) (p.2 : ℤ)) (n * n + 2) st.1
          (p.1 : ℤ) (p.2 : ℤ) q hq hqold
        exact ⟨hnew.1, hnew.2.1, hnew.2.2.1, hnew.2.2.2.1⟩
    · exact hst q hq

theorem visited_card_le (n : ℕ) (vis : Finset (ℤ × ℤ))
    (hb : ∀ q ∈ vis, 0 ≤ q.1 ∧ q.1 < (n : ℤ) ∧ 0 ≤ q.2 ∧ q.2 < (n : ℤ)) :
    vis.card ≤ n * n := by
  have hsub : vis ⊆
      Finset.Icc (0 : ℤ) ((n : ℤ) - 1) ×ˢ Finset.Icc (0 : ℤ) ((n : ℤ) - 1) := by
    intro q hq
    obtain ⟨h1, h2, h3, h4⟩ := hb q hq
    rw [Finset.mem_product, Finset.mem_Icc, Finset.mem_Icc]
    omega
  calc vis.card ≤ _ := Finset.card_le_card hsub
    _ ≤ n * n := by
      rw [Finset.card_product, Int.card_Icc]
      have : ((n : ℤ) - 1 + 1 - 0).toNat = n := by omega
      rw [this]

theorem gridAt_block (r c : ℕ) (i j : ℤ)
    (hb : 0 ≤ i ∧ i < ((32 : ℕ) : ℤ) ∧ 0 ≤ j ∧ j < ((32 : ℕ) : ℤ)) :
    gridAt (blockGrid r c) i j =
      if (r : ℤ) ≤ i ∧ i ≤ (r : ℤ) + 2 ∧ (c : ℤ) ≤ j ∧ j ≤ (c : ℤ) + 2 then 1
      else 0 := by
  rw [gridAt, dif_pos hb]
  by_cases hc : (r : ℤ) ≤ i ∧ i ≤ (r : ℤ) + 2 ∧ (c : ℤ) ≤ j ∧ j ≤ (c : ℤ) + 2
  · rw [if_pos hc, blockGrid, if_pos]
    refine ⟨show r ≤ i.toNat by omega, show i.toNat ≤ r + 2 by omega,
      show c ≤ j.toNat by omega, show j.toNat ≤ c + 2 by omega⟩
  · rw [if_neg hc, blockGrid, if_neg]
    rintro ⟨h1, h2, h3, h4⟩
    have h1' : r ≤ i.toNat := h1
    have h2' : i.toNat ≤ r + 2 := h2
    have h3' : c ≤ j.toNat := h3
    have h4' : j.toNat ≤ c + 2 := h4
    exact hc (by omega)

/-- Flood fill on the block grid rejects at any cell outside the block
(either out of bounds or at height 0, which misses the tolerance). -/
theorem block_reject_outside (r c : ℕ) (fuel : ℕ) (vis : Finset (ℤ × ℤ))
    (i j : ℤ)
    (hout : ¬((r : ℤ) ≤ i ∧ i ≤ (r : ℤ) + 2 ∧ (c : ℤ) ≤ j ∧ j ≤ (c : ℤ) + 2)) :
    flood_fill (blockGrid r c) 1 fuel vis i j = (0, vis) := by
  apply ff_reject_any
  by_cases hb : 0 ≤ i ∧ i < ((32 : ℕ) : ℤ) ∧ 0 ≤ j ∧ j < ((32 : ℕ) : ℤ)
  · right
    right
    rw [gridAt_block r c i j hb, if_neg hout]
    norm_num [absQ]
  · left
    exact hb

/-- Flood fill rejects at an already-visited cell. -/
theorem block_reject_visited (r c : ℕ) (fuel : ℕ) (vis : Finset (ℤ × ℤ))
    (i j : ℤ) (hmem : (i, j) ∈ vis) :
    flood_fill (blockGrid r c) 1 fuel vis i j = (0, vis) :=
  ff_reject_any _ _ _ _ _ _ (Or.inr (Or.inl hmem))

theorem ff_subset {n : ℕ} (hm : Grid n) (t : ℚ) : ∀ (fuel : ℕ)
    (vis : Finset (ℤ × ℤ)) (i j : ℤ),
    vis ⊆ (flood_fill hm t fuel vis i j).2 := by
  intro fuel
  induction fuel with
  | zero => intro vis i j; exact subset_rfl
  | succ f ih =>
    intro vis i j
    rw [flood_fill]
    split_ifs with hb hg
    · exact subset_rfl
    · dsimp only
      refine subset_trans (Finset.subset_insert (i, j) vis) ?_
      refine subset_trans (ih (insert (i, j) vis) (i + 1) j) ?_
      refine subset_trans (ih _ (i - 1) j) ?_
      refine subset_trans (ih _ i (j + 1)) ?_
      exact ih _ i (j - 1)
    · exact subset_rfl

/-- An in-bounds, in-tolerance cell with at least one unit of fuel always
ends up in the visited set of its own call. -/
theorem ff_self_mem {n : ℕ} (hm : Grid n) (t : ℚ) (f : ℕ)
    (vis : Finset (ℤ × ℤ)) (i j : ℤ)
    (hb : 0 ≤ i ∧ i < (n : ℤ) ∧ 0 ≤ j ∧ j < (n : ℤ))
    (htol : ¬(1 / 10 < absQ (gridAt hm i j - t))) :
    (i, j) ∈ (flood_fill hm t (f + 1) vis i j).2 := by
  rw [flood_fill, if_pos hb]
  by_cases hg : (i, j) ∈ vis ∨ 1 / 10 < absQ (gridAt hm i j - t)
  · rw [if_pos hg]
    rcases hg with hmem | htol'
    · exact hmem
    · exact absurd htol' htol
  · rw [if_neg hg]
    dsimp only
    refine Finset.mem_of_subset ?_ (Finset.mem_insert_self (i, j) vis)
    refine subset_trans (ff_subset hm t f (insert (i, j) vis) (i + 1) j) ?_
    refine subset_trans (ff_subset hm t f _ (i - 1) j) ?_
    refine subset_trans (ff_subset hm t f _ i (j + 1)) ?_
    exact ff_subset hm t f _ i (j - 1)

theorem ff_bounds_preserved {n : ℕ} (hm : Grid n) (t : ℚ) (fuel : ℕ)
    (vis : Finset (ℤ × ℤ)) (i j : ℤ)
    (hvb : ∀ q ∈ vis, 0 ≤ q.1 ∧ q.1 < (n : ℤ) ∧ 0 ≤ q.2 ∧ q.2 < (n : ℤ)) :
    ∀ q ∈ (flood_fill hm t fuel vis i j).2,
      0 ≤ q.1 ∧ q.1 < (n : ℤ) ∧ 0 ≤ q.2 ∧ q.2 < (n : ℤ) := by
  intro q hq
  by_cases hqv : q ∈ vis
  · exact hvb q hqv
  · have hnew := ff_new_cells hm t fuel vis i j q hq hqv
    exact ⟨hnew.1, hnew.2.1, hnew.2.2.1, hnew.2.2.2.1⟩

/-- Closure: with the standard fuel budget, the visited set returned by a
flood-fill call is closed under 4-adjacency from its newly visited cells to
any in-bounds, in-tolerance cell. -/
theorem ff_closure {n : ℕ} (hm : Grid n) (t : ℚ) : ∀ (fuel : ℕ)
    (vis : Finset (ℤ × ℤ)) (i j : ℤ),
    n * n + 1 ≤ fuel + vis.card →
    (∀ q ∈ vis, 0 ≤ q.1 ∧ q.1 < (n : ℤ) ∧ 0 ≤ q.2 ∧ q.2 < (n : ℤ)) →
    ∀ p q : ℤ × ℤ, p ∈ (flood_fill hm t fuel vis i j).2 → p ∉ vis →
      FFAdj p q →
      (0 ≤ q.1 ∧ q.1 < (n : ℤ) ∧ 0 ≤ q.2 ∧ q.2 < (n : ℤ)) →
      ¬(1 / 10 < absQ (gridAt hm q.1 q.2 - t)) →
      q ∈ (flood_fill hm t fuel vis i j).2 := by
  intro fuel
  induction fuel with
  | zero =>
    intro vis i j hfuel hvb p q hp hnp
    exact absurd hp hnp
  | succ f ih =>
    intro vis i j hfuel hvb p q hp hnp hadj hqb hqtol
    rw [flood_fill] at hp ⊢
    split_ifs at hp ⊢ with hb hg
    · exact absurd hp hnp
    · dsimp only at hp ⊢
      have hnmem : (i, j) ∉ vis := fun hmem => hg (Or.inl hmem)
      have hv1b : ∀ q' ∈ insert (i, j) vis,
          0 ≤ q'.1 ∧ q'.1 < (n : ℤ) ∧ 0 ≤ q'.2 ∧ q'.2 < (n : ℤ) := by
        intro q' hq'
        rcases Finset.mem_insert.mp hq' with rfl | hq'v
        · exact hb
        · exact hvb q' hq'v
      have hv1card : (insert (i, j) vis).card = vis.card + 1 :=
        Finset.card_insert_of_not_mem hnmem
      have hfpos : 1 ≤ f := by
        by_contra hf0
        have hf0' : f = 0 := by omega
        subst hf0'
        have hle := visited_card_le n (insert (i, j) vis) hv1b
        omega
      obtain ⟨g, rfl⟩ : ∃ g, f = g + 1 := ⟨f - 1, by omega⟩
      -- the four child calls, in order
      set v1 := insert (i, j) vis with hv1
      set R1 := flood_fill hm t (g + 1) v1 (i + 1) j with hR1
      set R2 := flood_fill hm t (g + 1) R1.2 (i - 1) j with hR2
      set R3 := flood_fill hm t (g + 1) R2.2 i (j + 1) with hR3
      set R4 := flood_fill hm t (g + 1) R3.2 i (j - 1) with hR4
      have hsub1 : v1 ⊆ R1.2 := ff_subset hm t _ _ _ _
      have hsub2 : R1.2 ⊆ R2.2 := ff_subset hm t _ _ _ _
      have hsub3 : R2.2 ⊆ R3.2 := ff_subset hm t _ _ _ _
      have hsub4 : R3.2 ⊆ R4.2 := ff_subset hm t _ _ _ _
      have hb1 : ∀ q' ∈ R1.2, 0 ≤ q'.1 ∧ q'.1 < (n : ℤ) ∧ 0 ≤ q'.2 ∧ q'.2 < (n : ℤ) :=
        ff_bounds_preserved hm t _ _ _ _ hv1b
      have hb2 : ∀ q' ∈ R2.2, 0 ≤ q'.1 ∧ q'.1 < (n : ℤ) ∧ 0 ≤ q'.2 ∧ q'.2 < (n : ℤ) :=
        ff_bounds_preserved hm t _ _ _ _ hb1
      have hb3 : ∀ q' ∈ R3.2, 0 ≤ q'.1 ∧ q'.1 < (n : ℤ) ∧ 0 ≤ q'.2 ∧ q'.2 < (n : ℤ) :=
        ff_bounds_preserved hm t _ _ _ _ hb2
      have hcard1 : v1.card ≤ R1.2.card := Finset.card_le_card hsub1
      have hcard2 : R1.2.card ≤ R2.2.card := Finset.card_le_card hsub2
      have hcard3 : R2.2.card ≤ R3.2.card := Finset.card_le_card hsub3
      by_cases hpij : p = (i, j)
      · -- `q` is one of the four neighbour calls' own cells
        subst hpij
        rcases hadj with rfl | rfl | rfl | rfl
        · exact hsub4 (hsub3 (hsub2 (ff_self_mem hm t g v1 (i + 1) j hqb hqtol)))
        · exact hsub4 (hsub3 (ff_self_mem hm t g R1.2 (i - 1) j hqb hqtol))
        · exact hsub4 (ff_self_mem hm t g R2.2 i (j + 1) hqb hqtol)
        · exact ff_self_mem hm t g R3.2 i (j - 1) hqb hqtol
      · -- `p` is newly visited inside one of the four subtrees
        have hpv1 : p ∉ v1 := by
          rw [hv1, Finset.mem_insert]
          rintro (heq | hmem)
          · exact hpij heq
          · exact hnp hmem
        by_cases hp3 : p ∈ R3.2
        · by_cases hp2 : p ∈ R2.2
          · by_cases hp1 : p ∈ R1.2
            · exact hsub4 (hsub3 (hsub2 (ih v1 (i + 1) j (by omega) hv1b p q hp1
                hpv1 hadj hqb hqtol)))
            · exact hsub4 (hsub3 (ih R1.2 (i - 1) j (by omega) hb1 p q hp2 hp1
                hadj hqb hqtol))
          · exact hsub4 (ih R2.2 i (j + 1) (by omega) hb2 p q hp3 hp2 hadj hqb hqtol)
        · exact ih R3.2 i (j - 1) (by omega) hb3 p q hp hp3 hadj hqb hqtol
    · exact absurd hp hnp

theorem block_tol (r c : ℕ) (x y : ℤ)
    (hin : (r : ℤ) ≤ x ∧ x ≤ (r : ℤ) + 2 ∧ (c : ℤ) ≤ y ∧ y ≤ (c : ℤ) + 2)
    (hb : 0 ≤ x ∧ x < ((32 : ℕ) : ℤ) ∧ 0 ≤ y ∧ y < ((32 : ℕ) : ℤ)) :
    ¬(1 / 10 < absQ (gridAt (blockGrid r c) x y - 1)) := by
  rw [gridAt_block r c x y hb, if_pos hin]
  norm_num [absQ]

theorem blockVisited_card (r c : ℕ) : (blockVisited r c).card = 9 := by
  rw [blockVisited]
  rw [Finset.card_insert_of_not_mem (by simp [Prod.ext_iff])]
  rw [Finset.card_insert_of_not_mem (by simp [Prod.ext_iff])]
  rw [Finset.card_insert_of_not_mem (by simp [Prod.ext_iff])]
  rw [Finset.card_insert_of_not_mem (by simp [Prod.ext_iff])]
  rw [Finset.card_insert_of_not_mem (by simp [Prod.ext_iff])]
  rw [Finset.card_insert_of_not_mem (by simp [Prod.ext_iff])]
  rw [Finset.card_insert_of_not_mem (by simp [Prod.ext_iff])]
  rw [Finset.card_insert_of_not_mem (by simp [Prod.ext_iff])]
  rw [Finset.card_insert_of_not_mem (Finset.not_mem_empty _), Finset.card_empty]

/-- The flood fill seeded at the corner of the 3×3 block visits exactly the
nine block cells and reports area 9. -/
theorem block_result (r c : ℕ) (hr : r ≤ 29) (hc : c ≤ 29) :
    (flood_fill (blockGrid r c) 1 (32 * 32 + 2) ∅ (r : ℤ) (c : ℤ)).2 =
        blockVisited r c ∧
      (flood_fill (blockGrid r c) 1 (32 * 32 + 2) ∅ (r : ℤ) (c : ℤ)).1 = 9 := by
  have hroot : ((r : ℤ), (c : ℤ)) ∈
      (flood_fill (blockGrid r c) 1 (32 * 32 + 2) ∅ (r : ℤ) (c : ℤ)).2 := by
    have hmem := ff_self_mem (blockGrid r c) 1 (32 * 32 + 1) ∅ (r : ℤ) (c : ℤ)
      (by omega) (block_tol r c _ _ (by omega) (by omega))
    rwa [(by norm_num : 32 * 32 + 1 + 1 = 32 * 32 + 2)] at hmem
  have hclos := ff_closure (blockGrid r c) 1 (32 * 32 + 2) ∅ (r : ℤ) (c : ℤ)
    (by norm_num) (fun q hq => absurd hq (Finset.not_mem_empty q))
  have step : ∀ p x y : ℤ × ℤ, p ∈
      (flood_fill (blockGrid r c) 1 (32 * 32 + 2) ∅ (r : ℤ) (c : ℤ)).2 →
      FFAdj p x → x = y →
      ((r : ℤ) ≤ x.1 ∧ x.1 ≤ (r : ℤ) + 2 ∧ (c : ℤ) ≤ x.2 ∧ x.2 ≤ (c : ℤ) + 2) →
      y ∈ (flood_fill (blockGrid r c) 1 (32 * 32 + 2) ∅ (r : ℤ) (c : ℤ)).2 := by
    rintro p x y hp hadj rfl hin
    refine hclos p x hp (Finset.not_mem_empty p) hadj (by omega) ?_
    exact block_tol r c x.1 x.2 (by omega) (by omega)
  have m10 : ((r : ℤ) + 1, (c : ℤ)) ∈ _ := step _ _ _ hroot
    (Or.inl rfl) rfl (by omega)
  have m20 : ((r : ℤ) + 2, (c : ℤ)) ∈ _ := step ((r : ℤ) + 1, (c : ℤ))
    ((r : ℤ) + 1 + 1, (c : ℤ)) ((r : ℤ) + 2, (c : ℤ)) m10 (Or.inl rfl)
    (by rw [Prod.mk.injEq]; exact ⟨by ring, rfl⟩) (by dsimp only; omega)
  have m01 : ((r : ℤ), (c : ℤ) + 1) ∈ _ := step _ _ _ hroot
    (Or.inr (Or.inr (Or.inl rfl))) rfl (by omega)
  have m02 : ((r : ℤ), (c : ℤ) + 2) ∈ _ := step ((r : ℤ), (c : ℤ) + 1)
    ((r : ℤ), (c : ℤ) + 1 + 1) ((r : ℤ), (c : ℤ) + 2) m01
    (Or.inr (Or.inr (Or.inl rfl))) (by rw [Prod.mk.injEq]; exact ⟨by ring, rfl⟩)
    (by dsimp only; omega)
  have m11 : ((r : ℤ) + 1, (c : ℤ) + 1) ∈ _ := step _ _ _ m10
    (Or.inr (Or.inr (Or.inl rfl))) rfl (by omega)
  have m12 : ((r : ℤ) + 1, (c : ℤ) + 2) ∈ _ := step ((r : ℤ) + 1, (c : ℤ) + 1)
    ((r : ℤ) + 1, (c : ℤ) + 1 + 1) ((r : ℤ) + 1, (c : ℤ) + 2) m11
    (Or.inr (Or.inr (Or.inl rfl))) (by rw [Prod.mk.injEq]; exact ⟨by ring, rfl⟩)
    (by dsimp only; omega)
  have m21 : ((r : ℤ) + 2, (c : ℤ) + 1) ∈ _ := step _ _ _ m20
    (Or.inr (Or.inr (Or.inl rfl))) rfl (by omega)
  have m22 : ((r : ℤ) + 2, (c : ℤ) + 2) ∈ _ := step ((r : ℤ) + 2, (c : ℤ) + 1)
    ((r : ℤ) + 2, (c : ℤ) + 1 + 1) ((r : ℤ) + 2, (c : ℤ) + 2) m21
    (Or.inr (Or.inr (Or.inl rfl))) (by rw [Prod.mk.injEq]; exact ⟨by ring, rfl⟩)
    (by dsimp only; omega)
  have hset : (flood_fill (blockGrid r c) 1 (32 * 32 + 2) ∅ (r : ℤ) (c : ℤ)).2 =
      blockVisited r c := by
    apply Finset.Subset.antisymm
    · intro q hq
      have hnew := ff_new_cells (blockGrid r c) 1 (32 * 32 + 2) ∅ (r : ℤ) (c : ℤ)
        q hq (Finset.not_mem_empty q)
      obtain ⟨hq1, hq2, hq3, hq4, hqtol⟩ := hnew
      rw [gridAt_block r c q.1 q.2 ⟨hq1, hq2, hq3, hq4⟩] at hqtol
      by_cases hin : (r : ℤ) ≤ q.1 ∧ q.1 ≤ (r : ℤ) + 2 ∧ (c : ℤ) ≤ q.2 ∧
          q.2 ≤ (c : ℤ) + 2
      · have hq' : q = (q.1, q.2) := rfl
        rw [hq']
        simp only [blockVisited, Finset.mem_insert, Finset.mem_singleton,
          Prod.mk.injEq, Finset.not_mem_empty, or_false]
        omega
      · rw [if_neg hin] at hqtol
        norm_num [absQ] at hqtol
    · intro q hq
      simp only [blockVisited, Finset.mem_insert, Finset.not_mem_empty,
        or_false] at hq
      rcases hq with rfl | rfl | rfl | rfl | rfl | rfl | rfl | rfl | rfl
      · exact m22
      · exact m12
      · exact m02
      · exact m01
      · exact m11
      · exact m21
      · exact m20
      · exact m10
      · exact hroot
  refine ⟨hset, ?_⟩
  have hcard := ff_card (blockGrid r c) 1 (32 * 32 + 2) ∅ (r : ℤ) (c : ℤ)
  rw [hset, blockVisited_card, Finset.card_empty] at hcard
  omega

/-- Row-major scan order visits the block corner `(r, c)` after only cells
strictly before it (lower row, or same row and lower column). -/
theorem scanList_split (r c : ℕ) (hr : r ≤ 29) (hc : c ≤ 29) :
    ∃ A B : List (ℕ × ℕ),
      scanList 32 = A ++ (r, c) :: B ∧
      (∀ p ∈ A, p.1 < 32 ∧ p.2 < 32 ∧ (p.1 < r ∨ (p.1 = r ∧ p.2 < c))) ∧
      (∀ p ∈ B, p.1 < 32 ∧ p.2 < 32) := by
  refine ⟨((List.range' 0 r).flatMap fun i => (List.range 32).map fun j => (i, j)) ++
      ((List.range' 0 c).map fun j => (r, j)),
    ((List.range' (c + 1) (31 - c)).map fun j => (r, j)) ++
      ((List.range' (r + 1) (31 - r)).flatMap fun i =>
        (List.range 32).map fun j => (i, j)), ?_, ?_, ?_⟩
  · have h32r : List.range 32 = List.range' 0 r ++ List.range' r (32 - r) := by
      have h := List.range'_append 0 r (32 - r) 1
      rw [show 0 + 1 * r = r by omega, show 32 - r + r = 32 by omega] at h
      rw [List.range_eq_range']
      exact h.symm
    have h32c : List.range 32 = List.range' 0 c ++ List.range' c (32 - c) := by
      have h := List.range'_append 0 c (32 - c) 1
      rw [show 0 + 1 * c = c by omega, show 32 - c + c = 32 by omega] at h
      rw [List.range_eq_range']
      exact h.symm
    have hrtl : List.range' r (32 - r) = r :: List.range' (r + 1) (31 - r) := by
      rw [show 32 - r = 31 - r + 1 by omega, List.range'_succ]
    have hctl : List.range' c (32 - c) = c :: List.range' (c + 1) (31 - c) := by
      rw [show 32 - c = 31 - c + 1 by omega, List.range'_succ]
    rw [scanList]
    generalize hf : (fun i => (List.range 32).map fun j => (i, j)) = f
    have hfr : f r = ((List.range' 0 c).map fun j => (r, j)) ++
        ((r, c) :: (List.range' (c + 1) (31 - c)).map fun j => (r, j)) := by
      rw [← hf]
      dsimp only
      rw [h32c, List.map_append, hctl, List.map_cons]
    rw [h32r, List.flatMap_append, hrtl, List.flatMap_cons, hfr]
    simp [List.append_assoc]
  · rintro p hp
    rw [List.mem_append] at hp
    rcases hp with hp | hp
    · rw [List.mem_flatMap] at hp
      obtain ⟨i, hi, hp⟩ := hp
      rw [List.mem_range'_1] at hi
      rw [List.mem_map] at hp
      obtain ⟨j, hj, rfl⟩ := hp
      rw [List.mem_range] at hj
      exact ⟨by dsimp only; omega, by dsimp only; omega,
        Or.inl (by dsimp only; omega)⟩
    · rw [List.mem_map] at hp
      obtain ⟨j, hj, rfl⟩ := hp
      rw [List.mem_range'_1] at hj
      exact ⟨by dsimp only; omega, by dsimp only; omega,
        Or.inr ⟨rfl, by dsimp only; omega⟩⟩
  · rintro p hp
    rw [List.mem_append] at hp
    rcases hp with hp | hp
    · rw [List.mem_map] at hp
      obtain ⟨j, hj, rfl⟩ := hp
      rw [List.mem_range'_1] at hj
      exact ⟨by dsimp only; omega, by dsimp only; omega⟩
    · rw [List.mem_flatMap] at hp
      obtain ⟨i, hi, hp⟩ := hp
      rw [List.mem_range'_1] at hi
      rw [List.mem_map] at hp
      obtain ⟨j, hj, rfl⟩ := hp
      rw [List.mem_range] at hj
      exact ⟨by dsimp only; omega, by dsimp only; omega⟩

/-- The whole `_find_flat_areas` scan of the block grid: the fold skips every
cell before the block corner, floods the nine block cells there, and skips
everything after. -/
theorem scan_block (r c : ℕ) (hr : r ≤ 29) (hc : c ≤ 29) :
    find_flat_areas_state (blockGrid r c) = (blockVisited r c, [9]) := by
  obtain ⟨A, B, hsplit, hA, hB⟩ := scanList_split r c hr hc
  rw [find_flat_areas_state, hsplit, List.foldl_append]
  have hAskip : A.foldl (scanStep (blockGrid r c)) (∅, []) = (∅, []) := by
    apply scan_skip
    intro p hp
    left
    obtain ⟨h1, h2, h3⟩ := hA p hp
    rw [gridAt_block r c _ _ ⟨by omega, by omega, by omega, by omega⟩]
    rw [if_neg (by omega)]
    norm_num
  rw [hAskip, List.foldl_cons]
  have hstep : scanStep (blockGrid r c) (∅, []) (r, c) =
      (blockVisited r c, [9]) := by
    have hb := block_result r c hr hc
    have htarget : gridAt (blockGrid r c) ((r : ℕ) : ℤ) ((c : ℕ) : ℤ) = 1 := by
      rw [gridAt_block r c _ _ ⟨by omega, by omega, by omega, by omega⟩]
      rw [if_pos ⟨by omega, by omega, by omega, by omega⟩]
    rw [scanStep]
    dsimp only
    rw [htarget]
    rw [if_pos ⟨by norm_num, Finset.not_mem_empty _⟩]
    rw [hb.2, hb.1]
    norm_num
  rw [hstep]
  apply scan_skip
  intro p hp
  obtain ⟨h1, h2⟩ := hB p hp
  by_cases hin : r ≤ p.1 ∧ p.1 ≤ r + 2 ∧ c ≤ p.2 ∧ p.2 ≤ c + 2
  · right
    dsimp only
    simp only [blockVisited, Finset.mem_insert, Finset.not_mem_empty, or_false,
      Prod.mk.injEq]
    omega
  · left
    rw [gridAt_block r c _ _ ⟨by omega, by omega, by omega, by omega⟩]
    rw [if_neg (by omega)]
    norm_num

/-- C8: a 3×3 block of uniform height 1.0 embedded anywhere in an otherwise
all-zero 32×32 grid makes the flat-area finder return exactly one area, of
size 9.  Moreover, across the whole scan of any grid each cell is counted in
at most one area — the reported areas sum to the cardinality of the final
visited set, hence to at most 32·32 — and every cell newly counted by a fill
has height within the tolerance 0.1 of the fill's seed height. -/
theorem C8_flat_area_correctness :
    (∀ r c : ℕ, r ≤ 29 → c ≤ 29 → find_flat_areas (blockGrid r c) = [9]) ∧
    (∀ hm : Grid 32,
      (find_flat_areas hm).sum = (find_flat_areas_state hm).1.card ∧
        (find_flat_areas hm).sum ≤ 32 * 32) ∧
    (∀ (hm : Grid 32) (t : ℚ) (vis : Finset (ℤ × ℤ)) (i j : ℤ) (q : ℤ × ℤ),
      q ∈ (flood_fill hm t (32 * 32 + 2) vis i j).2 → q ∉ vis →
        absQ (gridAt hm q.1 q.2 - t) ≤ 1 / 10) := by
  refine ⟨?_, ?_, ?_⟩
  · intro r c hr hc
    have h := scan_block r c hr hc
    rw [show find_flat_areas (blockGrid r c) =
      (find_flat_areas_state (blockGrid r c)).2 from rfl, h]
  · intro hm
    have hsum := scan_sum hm (scanList 32) (∅, [])
    have hbnd := scan_visited_bounds hm (scanList 32) (∅, [])
      (fun q hq => absurd hq (Finset.not_mem_empty q))
    have hcard := visited_card_le 32 ((scanList 32).foldl (scanStep hm) (∅, [])).1 hbnd
    simp only [Finset.card_empty, List.sum_nil, add_zero, zero_add] at hsum
    exact ⟨hsum, hsum ▸ hcard⟩
  · intro hm t vis i j q hq hnq
    exact (ff_new_cells hm t (32 * 32 + 2) vis i j q hq hnq).2.2.2.2

/-- C8 witness: the concrete block at corner (3, 5). -/
theorem C8_flat_area_witness :
    find_flat_areas (blockGrid 3 5) = [9] :=
  C8_flat_area_correctness.1 3 5 (by norm_num) (by norm_num)

end LogiPack
